import Mathlib

/-!
Shallow embedding of nandwrite.c (ofgwrite variant) and verification of the
frozen claims about it.

The write-loop engine of src/nandwrite.c is translated function-by-function:
the bad-block scan (lines 398-446), the staging-buffer fills for main data
(lines 448-498) and OOB data (lines 500-535), the page write with its
EIO-recovery path (lines 537-579), the option validation tail of
process_options (lines 187-199), the pre-flight checks of nandwrite_main
(lines 286-369) and the closeall epilogue (lines 584-595).

Collaborator calls (libmtd, read) are modelled by oracles in an environment:
mtd_is_bad by an answer per queried index, mtd_write / mtd_erase /
mtd_mark_bad by a result per offset or block index, and the input source by
a list of bytes delivered in order.  The staging buffer filebuf is modelled
as the list of its validly filled bytes (the C code never reads a cell of
filebuf beyond filebuf_len before overwriting it), with writebuf kept as a
byte offset into it.  The long long computations are modelled over Nat and
Int with explicit two's-complement masks where the C code relies on them.
A division by zero in the C code (SIGFPE on Linux) is modelled by a distinct
crash outcome.
-/

namespace Nandwrite

/-- A data byte.  The program never inspects payload bytes, so plain Nat. -/
abbrev Byte := Nat

/-- Result of an MTD driver call as the code observes it through the return
value and errno: success, failure with errno EIO, failure otherwise. -/
inductive DRes
  | ok
  | eio
  | err
deriving DecidableEq, Repr

/-- Observable actions issued by the write loop: bad-block queries, page
write attempts (absolute device offset, main payload or none for onlyoob,
OOB payload or none, driver result), erase attempts per erase-block index,
mark-bad calls, and progress reports (none models a report computed from the
uninitialized ofg_imglen variable). -/
inductive Event
  | isbadQ (idx : Nat) (bad : Bool)
  | write (off : Nat) (main : Option (List Byte)) (oob : Option (List Byte)) (res : DRes)
  | erase (idx : Nat) (res : DRes)
  | markbad (idx : Nat)
  | progress (v : Option Int)
deriving DecidableEq, Repr

/-- Device geometry, from struct mtd_dev_info: min_io_size is the page size,
eb_size the erase-block size, size the device size in bytes. -/
structure Mtd where
  min_io_size : Nat
  oob_size : Nat
  eb_size : Nat
  size : Nat
deriving DecidableEq, Repr

/-- The command-line derived option globals of nandwrite.c. -/
structure Opts where
  mtdoffset : Int
  inputskip : Int
  inputsize : Int
  quiet : Bool
  writeoob : Bool
  onlyoob : Bool
  markbad : Bool
  noecc : Bool
  autoplace : Bool
  noskipbad : Bool
  pad : Bool
  blockalign : Int
deriving DecidableEq, Repr

/-- Environment: geometry, options, input source and the device oracles.
stdin says whether the input is standard input; input is the byte stream the
source will deliver (for a regular file, also what fstat measures).
isBad answers mtd_is_bad for the index the code passes (none = query error);
writeRes gives the mtd_write outcome per absolute device offset; eraseRes
the mtd_erase outcome per erase-block index; markOk whether mtd_mark_bad
succeeds for a block index. -/
structure Env where
  mtd : Mtd
  opts : Opts
  stdin : Bool
  input : List Byte
  isBad : Nat → Option Bool
  writeRes : Nat → DRes
  eraseRes : Nat → DRes
  markOk : Nat → Bool

/-- blockalign as used in Nat arithmetic (validated non-negative). -/
def Env.ba (e : Env) : Nat := e.opts.blockalign.toNat

/-- ebsize_aligned = mtd.eb_size * blockalign (nandwrite.c line 286). -/
def Env.ebsize_aligned (e : Env) : Nat := e.mtd.eb_size * e.ba

/-- pagelen = mtd.min_io_size + (writeoob ? mtd.oob_size : 0) (line 329). -/
def Env.pagelen (e : Env) : Nat :=
  e.mtd.min_io_size + (if e.opts.writeoob then e.mtd.oob_size else 0)

/-- filebuf_max = ebsize_aligned / mtd.min_io_size * pagelen (line 377). -/
def Env.filebuf_max (e : Env) : Nat :=
  e.ebsize_aligned / e.mtd.min_io_size * e.pagelen

/-- The loop state of nandwrite_main.  blockstart none models the initial -1
sentinel; filebuf is the filled prefix of the staging buffer (its length is
filebuf_len); writebuf is the cursor byte offset into filebuf; inputRem the
bytes the input source has not yet delivered; trace the device actions so
far, oldest first. -/
structure St where
  mtdoffset : Nat
  blockstart : Option Nat
  baderaseblock : Bool
  filebuf : List Byte
  writebuf : Nat
  imglen : Int
  ofg_imglen : Option Int
  inputRem : List Byte
  trace : List Event
deriving DecidableEq, Repr

/-- mtdoffset & (~ebsize_aligned + 1): the two's-complement mask over the
64-bit long long, in Nat form.  For a = 0 the mask is 0, as in C. -/
def maskA (off a : Nat) : Nat := off &&& ((2 ^ 64 - a) % 2 ^ 64)

/-- Result of a phase that can leave the loop: normal continuation, goto
closeall, SIGFPE crash from a division by zero, or fuel exhaustion of the
model (out). -/
inductive PR
  | ok (st : St)
  | abort (st : St)
  | crash (st : St)
  | out (st : St)
deriving DecidableEq, Repr

/-- The do-while sub-unit scan of lines 421-444.  bs is blockstart; one
recursion step is one loop body execution; the caller passes blockalign as
fuel, which is exactly the number of iterations since the step is
ebsize_aligned / blockalign and the bound bs + ebsize_aligned.  A query
failure or the too-many-bad-blocks condition is goto closeall (.error). -/
def scanSubs (e : Env) (bs : Nat) : Nat → Nat → St → Except St St
  | 0, _, st => .ok st
  | fuel+1, offs, st =>
    match e.isBad (offs / e.ebsize_aligned) with
    | none => .error st
    | some b =>
      let st1 : St := { st with
        trace := st.trace ++ [.isbadQ (offs / e.ebsize_aligned) b],
        baderaseblock := st.baderaseblock || b }
      let st2 : St :=
        if st1.baderaseblock then { st1 with mtdoffset := bs + e.ebsize_aligned } else st1
      if st1.baderaseblock = true ∧ e.mtd.size < bs + e.ebsize_aligned then .error st2
      else
        let offs' := offs + e.ebsize_aligned / e.ba
        if offs' < bs + e.ebsize_aligned then scanSubs e bs fuel offs' st2
        else .ok st2

/-- The while loop of lines 398-446: recompute blockstart from the mask,
reset the staging buffer unless rewinding (writebuf == filebuf), and scan
the sub-units unless noskipbad.  The line 415 progress printf divides
blockstart by ebsize_aligned, and mtd_is_bad is called with
offs / ebsize_aligned, so ebsize_aligned = 0 crashes (SIGFPE). -/
def scanOuter (e : Env) : Nat → St → PR
  | 0, st => .out st
  | fuel+1, st =>
    if st.blockstart = some (maskA st.mtdoffset e.ebsize_aligned) then .ok st
    else
      let bs := maskA st.mtdoffset e.ebsize_aligned
      let st1 : St := { st with blockstart := some bs }
      let st2 : St :=
        if st1.writebuf ≠ 0 then { st1 with filebuf := [], writebuf := 0 } else st1
      let st3 : St := { st2 with baderaseblock := false }
      if e.opts.quiet = false ∧ e.ebsize_aligned = 0 then .crash st3
      else if e.opts.noskipbad then scanOuter e fuel st3
      else if e.ebsize_aligned = 0 then .crash st3
      else
        match scanSubs e bs e.ba bs st3 with
        | .error st4 => .abort st4
        | .ok st4 => scanOuter e fuel st4

/-- Result of a staging-buffer fill: continue, break out of the main loop
(clean end of input), or goto closeall. -/
inductive FillRes
  | ok (st : St)
  | brk (st : St)
  | abort (st : St)
deriving DecidableEq, Repr

/-- The main-data fill of lines 448-498.  The inner read loop is modelled by
its net effect on a list source: it obtains min(readlen, alreadyread +
available) bytes in total, and the last read returned 0 exactly when that
total is short of readlen.  A short non-zero total is padded with 0xff when
pad is set and is UnexpectedEof otherwise.  For non-stdin input the fill
reports progress from ofg_imglen (none when that variable was never
initialized). -/
def fillMain (e : Env) (st : St) : FillRes :=
  if st.writebuf + e.mtd.min_io_size > st.filebuf.length then
    let readlen := e.mtd.min_io_size
    let alreadyread := st.filebuf.length - st.writebuf
    let tinycnt := min readlen (alreadyread + st.inputRem.length)
    let got := tinycnt - alreadyread
    let eofHit := tinycnt < readlen
    if tinycnt = 0 then
      .brk (if e.stdin then { st with imglen := 0 } else st)
    else if eofHit ∧ e.opts.pad = false then .abort st
    else
      let st1 : St := { st with
        filebuf := st.filebuf ++ (st.inputRem.take got ++ List.replicate (readlen - tinycnt) 0xff),
        inputRem := st.inputRem.drop got }
      if e.stdin = false then
        let imglen1 := st1.imglen - (got : Int)
        let v : Option Int := st1.ofg_imglen.map (fun t => ((t - imglen1) * 100).tdiv t)
        .ok { st1 with imglen := imglen1, trace := st1.trace ++ [.progress v] }
      else if eofHit then .ok { st1 with imglen := 0 }
      else .ok st1
  else .ok st

/-- The OOB fill of lines 500-535: only when writeoob; a short total is
UnexpectedEof regardless of the pad policy (OOB is never padded). -/
def fillOob (e : Env) (st : St) : FillRes :=
  if e.opts.writeoob then
    let oobbuf := st.writebuf + e.mtd.min_io_size
    if oobbuf + e.mtd.oob_size > st.filebuf.length then
      let readlen := e.mtd.oob_size
      let alreadyread := st.filebuf.length - oobbuf
      let tinycnt := min readlen (alreadyread + st.inputRem.length)
      let got := tinycnt - alreadyread
      if tinycnt < readlen then .abort st
      else
        let st1 : St := { st with
          filebuf := st.filebuf ++ st.inputRem.take got,
          inputRem := st.inputRem.drop got }
        if e.stdin = false then .ok { st1 with imglen := st1.imglen - (got : Int) }
        else .ok st1
    else .ok st
  else .ok st

/-- The erase loop of lines 557-564: erase every erase-block-sized sub-unit
of [bs, bs + ebsize_aligned); an erase failure with errno EIO is tolerated,
any other erase failure is goto closeall.  ebsize_aligned is an exact
multiple of eb_size, so the iteration count is ebsize_aligned / eb_size. -/
def eraseStep (e : Env) (bs : Nat) (s : St) (k : Nat) : Except St St :=
  let i := bs + k * e.mtd.eb_size
  let r := e.eraseRes (i / e.mtd.eb_size)
  let s1 : St := { s with trace := s.trace ++ [.erase (i / e.mtd.eb_size) r] }
  if r = .err then .error s1 else .ok s1

def eraseRange (e : Env) (bs : Nat) (st : St) : Except St St :=
  (List.range (e.ebsize_aligned / e.mtd.eb_size)).foldlM (eraseStep e bs) st

/-- The main-data argument of the mtd_write call: the current page of the
staging buffer, or nothing in onlyoob mode (lines 540-541). -/
def mainArgOf (e : Env) (st : St) : Option (List Byte) :=
  if e.opts.onlyoob then none
  else some ((st.filebuf.drop st.writebuf).take e.mtd.min_io_size)

/-- The OOB argument of the mtd_write call: the OOB region following the
current page, or nothing when OOB is disabled (lines 542-543). -/
def oobArgOf (e : Env) (st : St) : Option (List Byte) :=
  if e.opts.writeoob then
    some ((st.filebuf.drop (st.writebuf + e.mtd.min_io_size)).take e.mtd.oob_size)
  else none

/-- The page write and its recovery path, lines 537-579.  mtd_write divides
mtdoffset by eb_size, so eb_size = 0 crashes.  On success mtdoffset advances
by a page and writebuf by pagelen.  On EIO the cursor rewinds to the start
of filebuf without touching its contents, the whole aligned block is erased,
the failing block is optionally marked bad, and mtdoffset moves to
blockstart + ebsize_aligned.  Any other write failure is goto closeall. -/
def writePhase (e : Env) (st : St) : PR :=
  if e.mtd.eb_size = 0 then .crash st
  else
    let res := e.writeRes st.mtdoffset
    let st1 : St :=
      { st with trace := st.trace ++ [.write st.mtdoffset (mainArgOf e st) (oobArgOf e st) res] }
    match res with
    | .ok => .ok { st1 with
        mtdoffset := st1.mtdoffset + e.mtd.min_io_size,
        writebuf := st1.writebuf + e.pagelen }
    | .err => .abort st1
    | .eio =>
      let bs := st1.blockstart.getD 0
      let st2 : St := { st1 with writebuf := 0 }
      match eraseRange e bs st2 with
      | .error st3 => .abort st3
      | .ok st3 =>
        if e.opts.markbad then
          if e.markOk (st3.mtdoffset / e.mtd.eb_size) then
            .ok { st3 with
              trace := st3.trace ++ [.markbad (st3.mtdoffset / e.mtd.eb_size)],
              mtdoffset := bs + e.ebsize_aligned }
          else .abort { st3 with
            trace := st3.trace ++ [.markbad (st3.mtdoffset / e.mtd.eb_size)] }
        else .ok { st3 with mtdoffset := bs + e.ebsize_aligned }

/-- The main loop guard of line 388:
(imglen > 0 || writebuf < filebuf + filebuf_len) && mtdoffset < mtd.size. -/
def loopCond (e : Env) (st : St) : Bool :=
  (decide (0 < st.imglen) || decide (st.writebuf < st.filebuf.length))
  && decide (st.mtdoffset < e.mtd.size)

/-- Result of one main-loop iteration. -/
inductive IterRes
  | cont (st : St)
  | done (st : St)
  | abort (st : St)
  | crash (st : St)
  | out (st : St)
deriving DecidableEq, Repr

/-- One iteration of the main while loop (lines 388-580): guard, bad-block
scan, main fill, OOB fill, write.  The scan gets mtd.size + 2 outer-loop
steps of fuel, enough because every repeated scan strictly advances
mtdoffset, which the code keeps at most mtd.size. -/
def loopIter (e : Env) (st : St) : IterRes :=
  if loopCond e st = false then .done st
  else
    match scanOuter e (e.mtd.size + 2) st with
    | .out st => .out st
    | .crash st => .crash st
    | .abort st => .abort st
    | .ok st =>
      match fillMain e st with
      | .abort st => .abort st
      | .brk st => .done st
      | .ok st =>
        match fillOob e st with
        | .abort st => .abort st
        | .brk st => .done st
        | .ok st =>
          match writePhase e st with
          | .ok st => .cont st
          | .abort st => .abort st
          | .crash st => .crash st
          | .out st => .out st

/-- How a whole run of the loop ended. -/
inductive RunRes
  | finished (st : St)
  | aborted (st : St)
  | crashed (st : St)
  | out (st : St)
deriving DecidableEq, Repr

/-- Iterate the main loop up to the given fuel. -/
def runLoop (e : Env) : Nat → St → RunRes
  | 0, st => .out st
  | fuel+1, st =>
    match loopIter e st with
    | .cont st => runLoop e fuel st
    | .done st => .finished st
    | .abort st => .aborted st
    | .crash st => .crashed st
    | .out st => .out st

/-- The state after n continuing iterations, none if the loop left the
continue path earlier. -/
def iterN (e : Env) : Nat → St → Option St
  | 0, st => some st
  | n+1, st =>
    match loopIter e st with
    | .cont st => iterN e n st
    | _ => none

/-- The validation tail of process_options, lines 187-199: negative start
offset, negative blockalign, autoplace with noecc, and pad with oob data
(unless onlyoob) are fatal.  true means the options pass. -/
def process_options_checks (o : Opts) : Bool :=
  decide (0 ≤ o.mtdoffset) && decide (0 ≤ o.blockalign)
  && !(o.autoplace && o.noecc)
  && !(!o.onlyoob && (o.pad && o.writeoob))

/-- The closeall message condition of lines 590-592:
failed || (ifd != STDIN_FILENO && imglen > 0) || (writebuf < filebuf + filebuf_len). -/
def closeallMsg (e : Env) (failed : Bool) (st : St) : Bool :=
  failed || (!e.stdin && decide (0 < st.imglen)) || decide (st.writebuf < st.filebuf.length)

/-- Overall outcome of nandwrite_main.  die: errmsg_die inside
process_options (exits non-zero before anything is opened).  earlyErr: a
return -1 before the input file is opened.  closed: the closeall epilogue
ran; msg records whether the partial-write error message was printed; the
function then returns EXIT_SUCCESS.  crashed: SIGFPE.  out: model fuel ran
out. -/
inductive MainRes
  | die
  | earlyErr
  | closed (msg : Bool) (st : St)
  | crashed (st : St)
  | out (st : St)
deriving DecidableEq, Repr

/-- The start-offset alignment mask of line 288: min_io_size - 1 as an int,
sign-extended to the 64-bit long long width. -/
def pageMask (e : Env) : Nat := (((e.mtd.min_io_size : Int) - 1).emod (2 ^ 64)).toNat

/-- The initial imglen of lines 331-347: for standard input, inputsize if
given else one pagelen as a quasi-boolean; for a regular file, the fstat
size minus the input skip, or inputsize when given. -/
def imglen0 (e : Env) : Int :=
  if e.stdin then
    if e.opts.inputsize ≠ 0 then e.opts.inputsize else (e.pagelen : Int)
  else
    if e.opts.inputsize = 0 then (e.input.length : Int) - e.opts.inputskip
    else e.opts.inputsize

/-- The loop state as first set up by nandwrite_main. -/
def initSt (e : Env) (imglen : Int) (ofg : Option Int) (rem : List Byte) : St :=
  { mtdoffset := e.opts.mtdoffset.toNat, blockstart := none, baderaseblock := false,
    filebuf := [], writebuf := 0, imglen := imglen, ofg_imglen := ofg,
    inputRem := rem, trace := [] }

/-- The pre-flight checks of lines 356-369 followed by the loop and the
closeall epilogue.  Line 356 computes imglen % pagelen and line 363
imglen / pagelen, so pagelen = 0 crashes; line 377 divides ebsize_aligned
by min_io_size, so min_io_size = 0 crashes there. -/
def mainChecks (e : Env) (st0 : St) (fuel : Nat) : MainRes :=
  if e.pagelen = 0 then .crashed st0
  else if e.opts.pad = false ∧ st0.imglen.tmod (e.pagelen : Int) ≠ 0 then
    .closed (closeallMsg e true st0) st0
  else if (st0.imglen.tdiv (e.pagelen : Int)) * (e.mtd.min_io_size : Int)
      > (e.mtd.size : Int) - e.opts.mtdoffset then
    .closed (closeallMsg e true st0) st0
  else if e.mtd.min_io_size = 0 then .crashed st0
  else
    match runLoop e fuel st0 with
    | .finished st => .closed (closeallMsg e false st) st
    | .aborted st => .closed (closeallMsg e true st) st
    | .crashed st => .crashed st
    | .out st => .out st

/-- nandwrite_main, lines 234-596, with the device and input successfully
opened (collaborator failures there are out of scope).  Order as in the
source: option validation, page-alignment check of the start offset
(mtdoffset & (min_io_size - 1), with the int operand sign-extended),
imglen and ofg_imglen setup per input kind, input skip, then mainChecks. -/
def nandwrite_main (e : Env) (fuel : Nat) : MainRes :=
  if process_options_checks e.opts = false then .die
  else if e.opts.mtdoffset.toNat &&& pageMask e ≠ 0 then .earlyErr
  else if e.stdin then
    let st0 := initSt e (imglen0 e) none e.input
    if e.opts.inputskip ≠ 0 then .closed (closeallMsg e true st0) st0
    else mainChecks e st0 fuel
  else
    let ofg : Option Int :=
      if e.opts.inputsize = 0 then some ((e.input.length : Int) - e.opts.inputskip)
      else none
    if e.opts.inputskip < 0 then
      let st0 := initSt e (imglen0 e) ofg e.input
      .closed (closeallMsg e true st0) st0
    else
      let st0 := initSt e (imglen0 e) ofg (e.input.drop e.opts.inputskip.toNat)
      mainChecks e st0 fuel

/-- The final state carried by a run result. -/
def RunRes.st : RunRes → St
  | .finished st => st
  | .aborted st => st
  | .crashed st => st
  | .out st => st

/-- The trace carried by an overall outcome (empty when the program never
reached the loop state). -/
def MainRes.trOf : MainRes → List Event
  | .die => []
  | .earlyErr => []
  | .closed _ st => st.trace
  | .crashed st => st.trace
  | .out st => st.trace

/-- Whether the partial-write failure message was printed, when the closeall
epilogue ran. -/
def MainRes.msgOf : MainRes → Option Bool
  | .closed m _ => some m
  | _ => none

/-- The process outcome: errmsg_die exits EXIT_FAILURE, the early paths
return -1, and the closeall epilogue always returns EXIT_SUCCESS (line 595);
none for a crash or for model fuel exhaustion. -/
def MainRes.retcode : MainRes → Option Int
  | .die => some 1
  | .earlyErr => some (-1)
  | .closed _ _ => some 0
  | _ => none

/-- Successful page writes in a trace: device offset and main payload. -/
def succWrites (tr : List Event) : List (Nat × Option (List Byte)) :=
  tr.filterMap (fun ev =>
    match ev with
    | .write off m _ .ok => some (off, m)
    | _ => none)

/-- Offsets of all page write attempts in a trace. -/
def writeOffsets (tr : List Event) : List Nat :=
  tr.filterMap (fun ev =>
    match ev with
    | .write off _ _ _ => some off
    | _ => none)

/-- Whether a trace contains a page write or erase attempt. -/
def hasDeviceMutation (tr : List Event) : Bool :=
  tr.any (fun ev =>
    match ev with
    | .write _ _ _ _ => true
    | .erase _ _ => true
    | _ => false)

/-- The state carried by a phase result. -/
def PR.st : PR → St
  | .ok st => st
  | .abort st => st
  | .crash st => st
  | .out st => st

/-- The state carried by a fill result. -/
def FillRes.st : FillRes → St
  | .ok st => st
  | .brk st => st
  | .abort st => st

/-- The state carried by an iteration result. -/
def IterRes.st : IterRes → St
  | .cont st => st
  | .done st => st
  | .abort st => st
  | .crash st => st
  | .out st => st

/-- The state carried by either side of an Except. -/
def exceptSt : Except St St → St
  | .ok st => st
  | .error st => st

/-- The erase events the recovery path issues for one aligned block. -/
def eraseTrace (e : Env) (bs : Nat) : List Event :=
  (List.range (e.ebsize_aligned / e.mtd.eb_size)).map
    (fun k => .erase ((bs + k * e.mtd.eb_size) / e.mtd.eb_size)
      (e.eraseRes ((bs + k * e.mtd.eb_size) / e.mtd.eb_size)))

/-! Concrete fixtures used to evaluate the model: a small NAND device with
2-byte pages, 4-byte erase blocks and a 16-byte capacity, written from a
regular file with every collaborator call succeeding. -/

def mtdA : Mtd := { min_io_size := 2, oob_size := 1, eb_size := 4, size := 16 }

def optsA : Opts :=
  { mtdoffset := 0, inputskip := 0, inputsize := 0, quiet := true,
    writeoob := false, onlyoob := false, markbad := false, noecc := false,
    autoplace := false, noskipbad := false, pad := false, blockalign := 1 }

def envA : Env :=
  { mtd := mtdA, opts := optsA, stdin := false,
    input := [1, 2, 3, 4, 5, 6, 7, 8],
    isBad := fun _ => some false,
    writeRes := fun _ => .ok,
    eraseRes := fun _ => .ok,
    markOk := fun _ => true }

/-- Options with the undocumented block-alignment multiple 3. -/
def optsB3 : Opts := { optsA with blockalign := 3 }

/-- A device with 2-byte erase blocks run with blockalign 3. -/
def envB3 : Env :=
  { envA with mtd := { mtdA with eb_size := 2, size := 12 },
              opts := optsB3, input := [1, 2] }

/-- Regular-file input with a nonzero input-size option. -/
def envC9 : Env := { envA with input := [1, 2], opts := { optsA with inputsize := 2 } }

/-- Regular-file input declared as 2 bytes long by input-size while the file
is empty. -/
def envC4 : Env := { envA with input := [], opts := { optsA with inputsize := 2 } }

/-- Regular-file input of a single byte, one short of a page, without pad. -/
def envShort : Env := { envA with input := [9] }

/-- The byte-accounting invariant of the main loop at the top of an
iteration: either the loop has not yet entered a block (initial state), or
the cursor is inside the current aligned block with the staging cursor at
pages-written-times-stride, or an EIO recovery has just moved the cursor to
the next aligned block with the staging cursor rewound. -/
def InvC10 (e : Env) (st : St) : Prop :=
  st.mtdoffset < 2 ^ 64 ∧
  ((st.blockstart = none ∧ st.writebuf = 0 ∧ st.filebuf = [] ∧
      e.ebsize_aligned ∣ st.mtdoffset) ∨
    (∃ bs : Nat, st.blockstart = some bs ∧ e.ebsize_aligned ∣ bs ∧
      bs ≤ st.mtdoffset ∧ st.mtdoffset ≤ bs + e.ebsize_aligned ∧
      e.mtd.min_io_size ∣ (st.mtdoffset - bs) ∧
      st.writebuf = (st.mtdoffset - bs) / e.mtd.min_io_size * e.pagelen ∧
      st.writebuf ≤ st.filebuf.length ∧
      st.filebuf.length ≤ e.filebuf_max ∧
      e.pagelen ∣ st.filebuf.length) ∨
    (∃ bs : Nat, st.blockstart = some bs ∧ e.ebsize_aligned ∣ bs ∧
      st.mtdoffset = bs + e.ebsize_aligned ∧ st.writebuf = 0 ∧
      st.filebuf.length ≤ e.filebuf_max ∧
      e.pagelen ∣ st.filebuf.length))

/-- The fixture with a negative start offset. -/
def envC6w : Env := { envA with opts := { optsA with mtdoffset := -1 } }

/-- The loop state the pre-loop code builds for envA. -/
def st0A : St := initSt envA 8 (some 8) envA.input

/-- The accepted but degenerate blockalign 0, quiet, no bad-block skipping,
with an EIO injected at the second page. -/
def envC8x : Env :=
  { envA with
      input := [1, 2, 3, 4],
      opts := { optsA with blockalign := 0, noskipbad := true },
      writeRes := fun o => if o = 2 then .eio else .ok }

/-- The loop state the pre-loop code builds for envC8x. -/
def st0C8 : St := initSt envC8x 4 (some 4) [1, 2, 3, 4]

/-- An EIO injected at the second page of the first block. -/
def envEio : Env := { envA with writeRes := fun o => if o = 2 then .eio else .ok }

/-- An EIO injected at the very first page. -/
def envEio0 : Env := { envA with writeRes := fun o => if o = 0 then .eio else .ok }

/-- A mid-loop state for envEio0: the first page is staged and about to be
written at the start of block 0. -/
def stC2 : St :=
  { mtdoffset := 0, blockstart := some 0, baderaseblock := false,
    filebuf := [1, 2, 3, 4], writebuf := 0, imglen := 4, ofg_imglen := some 8,
    inputRem := [5, 6, 7, 8], trace := [] }

/-- Erase block 0 is bad, blockalign 1. -/
def envBad1 : Env := { envA with input := [1, 2, 3, 4], isBad := fun i => some (i = 0) }

/-- The loop state the pre-loop code builds for envBad1. -/
def st0Bad1 : St := initSt envBad1 4 (some 4) [1, 2, 3, 4]

/-- Sub-block 1 (device offsets 4..7) is bad, blockalign 2: the scan of the
aligned block [0,8) only ever queries index 0. -/
def envBadBa2 : Env :=
  { envA with
      mtd := { mtdA with size := 32 },
      opts := { optsA with blockalign := 2 },
      isBad := fun i => some (i = 1),
      input := [1, 2, 3, 4, 5, 6, 7, 8] }

/-- One byte of input with padding enabled. -/
def envPad : Env := { envA with input := [9], opts := { optsA with pad := true } }

/-- The loop state the pre-loop code builds for envPad. -/
def st0Pad : St := initSt envPad 1 (some 1) [9]

/-- A page-aligned start offset that is not aligned to the aligned block. -/
def envC10x : Env := { envA with opts := { optsA with mtdoffset := 2 } }

/-- The loop state the pre-loop code builds for envC10x. -/
def st0C10x : St := initSt envC10x 8 (some 8) envC10x.input

/-- The state of the envA run after its first loop iteration: one page
written at offset 0, one page staged and the cursor past it. -/
def st1W : St :=
  { mtdoffset := 2, blockstart := some 0, baderaseblock := false,
    filebuf := [1, 2], writebuf := 2, imglen := 6, ofg_imglen := some 8,
    inputRem := [3, 4, 5, 6, 7, 8],
    trace := [.isbadQ 0 false, .progress (some 25), .write 0 (some [1, 2]) none .ok] }

/-- A loop state for envShort as the pre-loop code would build it. -/
def st0Short : St := initSt envShort 1 (some 1) [9]

/-- The state the first scan of the envC10x run exits with: blockstart 0,
device offset 2, staging cursor 0. -/
def uC10x : St :=
  { mtdoffset := 2, blockstart := some 0, baderaseblock := false, filebuf := [],
    writebuf := 0, imglen := 8, ofg_imglen := some 8,
    inputRem := [1, 2, 3, 4, 5, 6, 7, 8], trace := [.isbadQ 0 false] }

/-! Arithmetic facts about the blockstart mask computation. -/

/-- Inclusion-exclusion for bitwise or and and over Nat. -/
theorem lor_add_land (a : ℕ) : ∀ b : ℕ, (a ||| b) + (a &&& b) = a + b := by
  induction a using Nat.strong_induction_on with
  | _ a ih =>
    intro b
    rcases Nat.eq_zero_or_pos a with rfl | ha
    · simp
    · have hmod : ∀ z : ℕ, z % 2 = if z.testBit 0 then 1 else 0 := by
        intro z
        by_cases hb : z.testBit 0
        · simp only [hb, if_true]
          exact Nat.mod_two_eq_one_iff_testBit_zero.mpr hb
        · simp only [hb, if_false]
          exact Nat.mod_two_eq_zero_iff_testBit_zero.mpr (by simpa using hb)
      have hmods : (a ||| b) % 2 + (a &&& b) % 2 = a % 2 + b % 2 := by
        rw [hmod, hmod, hmod, hmod]
        rw [Nat.testBit_or, Nat.testBit_and]
        cases a.testBit 0 <;> cases b.testBit 0 <;> simp
      have ihd := ih (a / 2) (Nat.div_lt_self ha (by norm_num)) (b / 2)
      have dm : ∀ x : ℕ, 2 * (x / 2) + x % 2 = x := fun x => Nat.div_add_mod x 2
      calc (a ||| b) + (a &&& b)
          = (2 * ((a ||| b) / 2) + (a ||| b) % 2)
            + (2 * ((a &&& b) / 2) + (a &&& b) % 2) := by rw [dm, dm]
        _ = 2 * ((a / 2 ||| b / 2) + (a / 2 &&& b / 2))
            + ((a ||| b) % 2 + (a &&& b) % 2) := by
              rw [Nat.or_div_two, Nat.and_div_two]; ring
        _ = 2 * (a / 2 + b / 2) + (a % 2 + b % 2) := by rw [ihd, hmods]
        _ = (2 * (a / 2) + a % 2) + (2 * (b / 2) + b % 2) := by ring
        _ = a + b := by rw [dm, dm]

/-- The mask never moves the offset forward. -/
theorem maskA_le (x a : ℕ) : maskA x a ≤ x := Nat.and_le_left

/-- The mask moves the offset back by less than a: so blockstart +
ebsize_aligned is always strictly beyond the current offset, for every
positive ebsize_aligned representable in the 64-bit arithmetic. -/
theorem lt_maskA_add {x a : ℕ} (hx : x < 2 ^ 64) (ha0 : 0 < a) (ha : a ≤ 2 ^ 64) :
    x < maskA x a + a := by
  unfold maskA
  have hm : (2 ^ 64 - a) % 2 ^ 64 = 2 ^ 64 - a := Nat.mod_eq_of_lt (by omega)
  rw [hm]
  have hid := lor_add_land x (2 ^ 64 - a)
  have hor : x ||| (2 ^ 64 - a) < 2 ^ 64 :=
    Nat.or_lt_two_pow hx (by omega)
  omega

/-- Range bookkeeping: below 2^63 implies below 2^64. -/
theorem le63_lt64 {x : ℕ} (h : x ≤ 2 ^ 63) : x < 2 ^ 64 := by
  have h2 : (2 : ℕ) ^ 63 < 2 ^ 64 := by norm_num
  omega

/-- Range bookkeeping: below 2^63 implies at most 2^64. -/
theorem le63_le64 {x : ℕ} (h : x ≤ 2 ^ 63) : x ≤ 2 ^ 64 :=
  Nat.le_of_lt (le63_lt64 h)

/-- For a power-of-two aligned block size the mask computes exactly the
floor-aligned block start. -/
theorem maskA_pow2 {x k : ℕ} (hx : x < 2 ^ 64) (hk : k ≤ 64) :
    maskA x (2 ^ k) = x / 2 ^ k * 2 ^ k := by
  unfold maskA
  have hkpos : 0 < (2 : ℕ) ^ k := Nat.pos_pow_of_pos k (by norm_num)
  have hkle : (2 : ℕ) ^ k ≤ 2 ^ 64 := Nat.pow_le_pow_right (by norm_num) hk
  have hm : (2 ^ 64 - 2 ^ k) % 2 ^ 64 = 2 ^ 64 - 2 ^ k := Nat.mod_eq_of_lt (by omega)
  rw [hm]
  have hsplit : (2 : ℕ) ^ 64 - 2 ^ k = 2 ^ k * (2 ^ (64 - k) - 1) := by
    rw [← Nat.pred_eq_sub_one, Nat.mul_pred, ← pow_add]
    congr 2
    omega
  rw [hsplit]
  apply Nat.eq_of_testBit_eq
  intro i
  rw [Nat.testBit_and, Nat.testBit_mul_pow_two]
  have hdiv : x / 2 ^ k * 2 ^ k = 2 ^ k * (x / 2 ^ k) := by ring
  rw [hdiv, Nat.testBit_mul_pow_two]
  by_cases hik : k ≤ i
  · have hdec : decide (i ≥ k) = true := decide_eq_true hik
    rw [hdec, Bool.true_and, Bool.true_and]
    rw [Nat.testBit_two_pow_sub_one]
    have hdb : (x / 2 ^ k).testBit (i - k) = x.testBit i := by
      rw [← Nat.shiftRight_eq_div_pow, Nat.testBit_shiftRight]
      congr 1
      omega
    rw [hdb]
    by_cases hi64 : i < 64
    · have : i - k < 64 - k := by omega
      simp [this]
    · have h1 : ¬ (i - k < 64 - k) := by omega
      have h2 : x.testBit i = false :=
        Nat.testBit_lt_two_pow (lt_of_lt_of_le hx (Nat.pow_le_pow_right (by norm_num) (by omega)))
      simp [h1, h2]
  · simp [ge_iff_le, hik]

/-- For a power-of-two a the mask fixes multiples of a. -/
theorem maskA_pow2_self {x k : ℕ} (hx : x < 2 ^ 64) (hk : k ≤ 64) (hd : 2 ^ k ∣ x) :
    maskA x (2 ^ k) = x := by
  rw [maskA_pow2 hx hk, Nat.div_mul_cancel hd]

/-! Trace bookkeeping lemmas. -/

@[simp] theorem succWrites_nil : succWrites [] = [] := rfl

@[simp] theorem writeOffsets_nil : writeOffsets [] = [] := rfl

@[simp] theorem succWrites_append (t1 t2 : List Event) :
    succWrites (t1 ++ t2) = succWrites t1 ++ succWrites t2 := by
  simp [succWrites, List.filterMap_append]

@[simp] theorem writeOffsets_append (t1 t2 : List Event) :
    writeOffsets (t1 ++ t2) = writeOffsets t1 ++ writeOffsets t2 := by
  simp [writeOffsets, List.filterMap_append]

@[simp] theorem succWrites_isbadQ (i : Nat) (b : Bool) :
    succWrites [Event.isbadQ i b] = [] := rfl

@[simp] theorem writeOffsets_isbadQ (i : Nat) (b : Bool) :
    writeOffsets [Event.isbadQ i b] = [] := rfl

@[simp] theorem succWrites_progress (v : Option Int) :
    succWrites [Event.progress v] = [] := rfl

@[simp] theorem writeOffsets_progress (v : Option Int) :
    writeOffsets [Event.progress v] = [] := rfl

@[simp] theorem succWrites_erase (i : Nat) (r : DRes) :
    succWrites [Event.erase i r] = [] := rfl

@[simp] theorem writeOffsets_erase (i : Nat) (r : DRes) :
    writeOffsets [Event.erase i r] = [] := rfl

@[simp] theorem succWrites_markbad (i : Nat) :
    succWrites [Event.markbad i] = [] := rfl

@[simp] theorem writeOffsets_markbad (i : Nat) :
    writeOffsets [Event.markbad i] = [] := rfl

@[simp] theorem succWrites_write_ok (off : Nat) (m o : Option (List Byte)) :
    succWrites [Event.write off m o .ok] = [(off, m)] := rfl

@[simp] theorem succWrites_write_eio (off : Nat) (m o : Option (List Byte)) :
    succWrites [Event.write off m o .eio] = [] := rfl

@[simp] theorem succWrites_write_err (off : Nat) (m o : Option (List Byte)) :
    succWrites [Event.write off m o .err] = [] := rfl

@[simp] theorem writeOffsets_write (off : Nat) (m o : Option (List Byte)) (r : DRes) :
    writeOffsets [Event.write off m o r] = [off] := rfl

/-! Behavior of the sub-unit scan. -/

/-- The sub-unit scan only queries the bad-block oracle: it never touches
the staging buffer, the input, or the image length, and it moves mtdoffset
only to blockstart + ebsize_aligned; when it returns normally after moving
mtdoffset, the too-many-bad-blocks check has passed. -/
theorem scanSubs_spec (e : Env) (bs : Nat) :
    ∀ (fuel offs : Nat) (st : St),
      (exceptSt (scanSubs e bs fuel offs st)).filebuf = st.filebuf ∧
      (exceptSt (scanSubs e bs fuel offs st)).writebuf = st.writebuf ∧
      (exceptSt (scanSubs e bs fuel offs st)).inputRem = st.inputRem ∧
      (exceptSt (scanSubs e bs fuel offs st)).imglen = st.imglen ∧
      (exceptSt (scanSubs e bs fuel offs st)).ofg_imglen = st.ofg_imglen ∧
      (exceptSt (scanSubs e bs fuel offs st)).blockstart = st.blockstart ∧
      ((exceptSt (scanSubs e bs fuel offs st)).mtdoffset = st.mtdoffset ∨
        (exceptSt (scanSubs e bs fuel offs st)).mtdoffset = bs + e.ebsize_aligned) ∧
      succWrites (exceptSt (scanSubs e bs fuel offs st)).trace = succWrites st.trace ∧
      writeOffsets (exceptSt (scanSubs e bs fuel offs st)).trace = writeOffsets st.trace ∧
      (∀ u : St, scanSubs e bs fuel offs st = .ok u →
        u.mtdoffset = st.mtdoffset ∨
        (u.mtdoffset = bs + e.ebsize_aligned ∧ bs + e.ebsize_aligned ≤ e.mtd.size)) := by
  intro fuel
  induction fuel with
  | zero =>
    intro offs st
    refine ⟨rfl, rfl, rfl, rfl, rfl, rfl, Or.inl rfl, rfl, rfl, ?_⟩
    intro u hu
    cases hu
    exact Or.inl rfl
  | succ n ih =>
    intro offs st
    simp only [scanSubs]
    cases hIB : e.isBad (offs / e.ebsize_aligned) with
    | none =>
      refine ⟨rfl, rfl, rfl, rfl, rfl, rfl, Or.inl rfl, rfl, rfl, ?_⟩
      intro u hu
      cases hu
    | some b =>
      simp only [hIB]
      by_cases hbb : (st.baderaseblock || b) = true
      · simp only [if_pos hbb]
        by_cases hsz : e.mtd.size < bs + e.ebsize_aligned
        · rw [if_pos ⟨hbb, hsz⟩]
          refine ⟨rfl, rfl, rfl, rfl, rfl, rfl, Or.inr rfl, by simp [exceptSt], by simp [exceptSt], ?_⟩
          intro u hu
          cases hu
        · rw [if_neg (fun h => hsz h.2)]
          by_cases hoffs : offs + e.ebsize_aligned / e.ba < bs + e.ebsize_aligned
          · rw [if_pos hoffs]
            have H := ih (offs + e.ebsize_aligned / e.ba)
              { st with
                  trace := st.trace ++ [.isbadQ (offs / e.ebsize_aligned) b],
                  baderaseblock := st.baderaseblock || b,
                  mtdoffset := bs + e.ebsize_aligned }
            obtain ⟨h1, h2, h3, h4, h5, h6, h7, h8, h9, h10⟩ := H
            refine ⟨h1, h2, h3, h4, h5, h6, ?_, ?_, ?_, ?_⟩
            · rcases h7 with h | h
              · exact Or.inr h
              · exact Or.inr h
            · rw [h8]
              simp
            · rw [h9]
              simp
            · intro u hu
              rcases h10 u hu with h | h
              · exact Or.inr ⟨h, by omega⟩
              · exact Or.inr h
          · rw [if_neg hoffs]
            refine ⟨rfl, rfl, rfl, rfl, rfl, rfl, Or.inr rfl, by simp [exceptSt], by simp [exceptSt], ?_⟩
            intro u hu
            cases hu
            exact Or.inr ⟨rfl, by omega⟩
      · simp only [if_neg hbb]
        rw [if_neg (fun h => hbb h.1)]
        by_cases hoffs : offs + e.ebsize_aligned / e.ba < bs + e.ebsize_aligned
        · rw [if_pos hoffs]
          have H := ih (offs + e.ebsize_aligned / e.ba)
            { st with
                trace := st.trace ++ [.isbadQ (offs / e.ebsize_aligned) b],
                baderaseblock := st.baderaseblock || b }
          obtain ⟨h1, h2, h3, h4, h5, h6, h7, h8, h9, h10⟩ := H
          refine ⟨h1, h2, h3, h4, h5, h6, ?_, ?_, ?_, ?_⟩
          · rcases h7 with h | h
            · exact Or.inl h
            · exact Or.inr h
          · rw [h8]
            simp
          · rw [h9]
            simp
          · intro u hu
            rcases h10 u hu with h | h
            · exact Or.inl h
            · exact Or.inr h
        · rw [if_neg hoffs]
          refine ⟨rfl, rfl, rfl, rfl, rfl, rfl, Or.inl rfl, by simp [exceptSt], by simp [exceptSt], ?_⟩
          intro u hu
          cases hu
          exact Or.inl rfl

/-- scanSubs_spec specialized to a normal exit. -/
theorem scanSubs_ok_spec (e : Env) {bs fuel offs : Nat} {st u : St}
    (h : scanSubs e bs fuel offs st = .ok u) :
    u.filebuf = st.filebuf ∧ u.writebuf = st.writebuf ∧ u.inputRem = st.inputRem ∧
    u.imglen = st.imglen ∧ u.ofg_imglen = st.ofg_imglen ∧ u.blockstart = st.blockstart ∧
    (u.mtdoffset = st.mtdoffset ∨
      (u.mtdoffset = bs + e.ebsize_aligned ∧ bs + e.ebsize_aligned ≤ e.mtd.size)) ∧
    succWrites u.trace = succWrites st.trace ∧
    writeOffsets u.trace = writeOffsets st.trace := by
  have S := scanSubs_spec e bs fuel offs st
  rw [h] at S
  simp only [exceptSt] at S
  obtain ⟨s1, s2, s3, s4, s5, s6, _, s8, s9, s10⟩ := S
  exact ⟨s1, s2, s3, s4, s5, s6, s10 u rfl, s8, s9⟩

/-- scanSubs_spec specialized to the goto-closeall exit. -/
theorem scanSubs_error_spec (e : Env) {bs fuel offs : Nat} {st u : St}
    (h : scanSubs e bs fuel offs st = .error u) :
    u.filebuf = st.filebuf ∧ u.writebuf = st.writebuf ∧ u.inputRem = st.inputRem ∧
    u.imglen = st.imglen ∧ u.ofg_imglen = st.ofg_imglen ∧ u.blockstart = st.blockstart ∧
    (u.mtdoffset = st.mtdoffset ∨ u.mtdoffset = bs + e.ebsize_aligned) ∧
    succWrites u.trace = succWrites st.trace ∧
    writeOffsets u.trace = writeOffsets st.trace := by
  have S := scanSubs_spec e bs fuel offs st
  rw [h] at S
  simp only [exceptSt] at S
  obtain ⟨s1, s2, s3, s4, s5, s6, s7, s8, s9, _⟩ := S
  exact ⟨s1, s2, s3, s4, s5, s6, s7, s8, s9⟩

/-- When the outer scan exits normally, blockstart holds the mask of the
current offset: the loop condition of line 398 has just become false. -/
theorem scanOuter_post (e : Env) :
    ∀ (fuel : Nat) (st u : St), scanOuter e fuel st = .ok u →
      u.blockstart = some (maskA u.mtdoffset e.ebsize_aligned) := by
  intro fuel
  induction fuel with
  | zero =>
    intro st u h
    simp [scanOuter] at h
  | succ n ih =>
    intro st u h
    rw [scanOuter] at h
    by_cases hb : st.blockstart = some (maskA st.mtdoffset e.ebsize_aligned)
    · rw [if_pos hb] at h
      simp only [PR.ok.injEq] at h
      subst h
      exact hb
    · rw [if_neg hb] at h
      dsimp only at h
      split at h
      · simp at h
      · split at h
        · exact ih _ _ h
        · split at h
          · simp at h
          · split at h
            · simp at h
            · exact ih _ _ h

/-- The outer scan does not consume input or change the image length, it
issues no writes or erases, and the staging buffer is either left as it was
or reset (cursor 0 and empty buffer); the cursor is reset only together
with the buffer, so a rewound cursor at 0 keeps the staged bytes. -/
theorem scanOuter_fields (e : Env) :
    ∀ (fuel : Nat) (st : St) (r : PR), scanOuter e fuel st = r →
      (PR.st r).inputRem = st.inputRem ∧
      (PR.st r).imglen = st.imglen ∧
      (PR.st r).ofg_imglen = st.ofg_imglen ∧
      succWrites (PR.st r).trace = succWrites st.trace ∧
      writeOffsets (PR.st r).trace = writeOffsets st.trace ∧
      (((PR.st r).writebuf = st.writebuf ∧ (PR.st r).filebuf = st.filebuf) ∨
       ((PR.st r).writebuf = 0 ∧ (PR.st r).filebuf = [])) := by
  intro fuel
  induction fuel with
  | zero =>
    intro st r h
    cases h
    exact ⟨rfl, rfl, rfl, rfl, rfl, Or.inl ⟨rfl, rfl⟩⟩
  | succ n ih =>
    intro st r h
    rw [scanOuter] at h
    by_cases hb : st.blockstart = some (maskA st.mtdoffset e.ebsize_aligned)
    · rw [if_pos hb] at h
      cases h
      exact ⟨rfl, rfl, rfl, rfl, rfl, Or.inl ⟨rfl, rfl⟩⟩
    · rw [if_neg hb] at h
      dsimp only at h
      split at h
      · cases h
        refine ⟨?_, ?_, ?_, ?_, ?_, ?_⟩ <;>
          (try split) <;> first
            | rfl
            | exact Or.inr ⟨rfl, rfl⟩
            | exact Or.inl ⟨rfl, rfl⟩
      · split at h
        · obtain ⟨g1, g2, g3, g4, g5, g6⟩ := ih _ _ h
          revert g1 g2 g3 g4 g5 g6
          split <;> intro g1 g2 g3 g4 g5 g6 <;>
            refine ⟨g1, g2, g3, g4, g5, ?_⟩
          · rcases g6 with ⟨ga, gb⟩ | ⟨ga, gb⟩
            · exact Or.inr ⟨ga, gb⟩
            · exact Or.inr ⟨ga, gb⟩
          · rcases g6 with ⟨ga, gb⟩ | ⟨ga, gb⟩
            · exact Or.inl ⟨ga, gb⟩
            · exact Or.inr ⟨ga, gb⟩
        · split at h
          · cases h
            refine ⟨?_, ?_, ?_, ?_, ?_, ?_⟩ <;>
              (try split) <;> first
                | rfl
                | exact Or.inr ⟨rfl, rfl⟩
                | exact Or.inl ⟨rfl, rfl⟩
          · split at h
            · next st4 hsc =>
                cases h
                obtain ⟨s1, s2, s3, s4, s5, s6, s7, s8, s9⟩ :=
                  scanSubs_error_spec e hsc
                revert s1 s2 s3 s4 s5 s8 s9
                split <;> intro s1 s2 s3 s4 s5 s8 s9
                · exact ⟨s3, s4, s5, s8, s9, Or.inr ⟨s2, s1⟩⟩
                · exact ⟨s3, s4, s5, s8, s9, Or.inl ⟨s2, s1⟩⟩
            · next st4 hsc =>
                obtain ⟨s1, s2, s3, s4, s5, s6, s7, s8, s9⟩ :=
                  scanSubs_ok_spec e hsc
                obtain ⟨g1, g2, g3, g4, g5, g6⟩ := ih _ _ h
                revert s1 s2 s3 s4 s5 s8 s9
                split <;> intro s1 s2 s3 s4 s5 s8 s9
                · refine ⟨g1.trans s3, g2.trans s4, g3.trans s5,
                    g4.trans s8, g5.trans s9, ?_⟩
                  rcases g6 with ⟨ga, gb⟩ | ⟨ga, gb⟩
                  · exact Or.inr ⟨ga.trans s2, gb.trans s1⟩
                  · exact Or.inr ⟨ga, gb⟩
                · refine ⟨g1.trans s3, g2.trans s4, g3.trans s5,
                    g4.trans s8, g5.trans s9, ?_⟩
                  rcases g6 with ⟨ga, gb⟩ | ⟨ga, gb⟩
                  · exact Or.inl ⟨ga.trans s2, gb.trans s1⟩
                  · exact Or.inr ⟨ga, gb⟩

/-! Behavior of the erase loop and the write phase. -/

/-- One erase call, when the erase does not fail with a non-EIO error. -/
theorem eraseStep_ok_eq (e : Env) (bs : Nat) (s : St) (k : Nat)
    (h : ¬ e.eraseRes ((bs + k * e.mtd.eb_size) / e.mtd.eb_size) = .err) :
    eraseStep e bs s k = .ok { s with
      trace := s.trace ++ [.erase ((bs + k * e.mtd.eb_size) / e.mtd.eb_size)
        (e.eraseRes ((bs + k * e.mtd.eb_size) / e.mtd.eb_size))] } := by
  unfold eraseStep
  rw [if_neg h]

/-- One erase call failing with a non-EIO error. -/
theorem eraseStep_err_eq (e : Env) (bs : Nat) (s : St) (k : Nat)
    (h : e.eraseRes ((bs + k * e.mtd.eb_size) / e.mtd.eb_size) = .err) :
    eraseStep e bs s k = .error { s with
      trace := s.trace ++ [.erase ((bs + k * e.mtd.eb_size) / e.mtd.eb_size)
        (e.eraseRes ((bs + k * e.mtd.eb_size) / e.mtd.eb_size))] } := by
  unfold eraseStep
  rw [if_pos h]

/-- The erase loop only appends erase events: all other state fields are
untouched, whichever way it exits. -/
theorem eraseFold_fields (e : Env) (bs : Nat) :
    ∀ (l : List Nat) (st : St) (r : Except St St),
      l.foldlM (eraseStep e bs) st = r →
      (exceptSt r).mtdoffset = st.mtdoffset ∧
      (exceptSt r).blockstart = st.blockstart ∧
      (exceptSt r).filebuf = st.filebuf ∧
      (exceptSt r).writebuf = st.writebuf ∧
      (exceptSt r).inputRem = st.inputRem ∧
      (exceptSt r).imglen = st.imglen ∧
      (exceptSt r).ofg_imglen = st.ofg_imglen ∧
      succWrites (exceptSt r).trace = succWrites st.trace ∧
      writeOffsets (exceptSt r).trace = writeOffsets st.trace := by
  intro l
  induction l with
  | nil =>
    intro st r h
    cases h
    exact ⟨rfl, rfl, rfl, rfl, rfl, rfl, rfl, rfl, rfl⟩
  | cons k l ih =>
    intro st r h
    rw [List.foldlM_cons] at h
    by_cases hres : e.eraseRes ((bs + k * e.mtd.eb_size) / e.mtd.eb_size) = .err
    · rw [eraseStep_err_eq e bs st k hres] at h
      rw [show ∀ (s : St) (m : St → Except St St), (Except.error s : Except St St) >>= m =
          .error s from fun s m => rfl] at h
      cases h
      exact ⟨rfl, rfl, rfl, rfl, rfl, rfl, rfl, by simp [exceptSt], by simp [exceptSt]⟩
    · rw [eraseStep_ok_eq e bs st k hres] at h
      rw [show ∀ (s : St) (m : St → Except St St), (Except.ok s : Except St St) >>= m = m s
          from fun s m => rfl] at h
      obtain ⟨g1, g2, g3, g4, g5, g6, g7, g8, g9⟩ := ih _ _ h
      refine ⟨g1, g2, g3, g4, g5, g6, g7, ?_, ?_⟩
      · rw [g8]
        simp
      · rw [g9]
        simp

/-- When no erase reports a non-EIO error, the erase loop returns normally
having appended exactly one erase event per sub-unit. -/
theorem eraseFold_ok (e : Env) (bs : Nat)
    (herase : ∀ i, e.eraseRes i ≠ .err) :
    ∀ (l : List Nat) (st : St),
      l.foldlM (eraseStep e bs) st =
        .ok { st with trace := st.trace ++ l.map (fun k =>
          .erase ((bs + k * e.mtd.eb_size) / e.mtd.eb_size)
            (e.eraseRes ((bs + k * e.mtd.eb_size) / e.mtd.eb_size))) } := by
  intro l
  induction l with
  | nil =>
    intro st
    simp [List.foldlM_nil]
    rfl
  | cons k l ih =>
    intro st
    rw [List.foldlM_cons]
    rw [eraseStep_ok_eq e bs st k (herase _)]
    rw [show ∀ (s : St) (m : St → Except St St), (Except.ok s : Except St St) >>= m = m s
        from fun s m => rfl]
    rw [ih]
    simp

/-- eraseRange with no non-EIO erase failure: the recovery erases every
erase-block-sized sub-unit of the aligned block, in order. -/
theorem eraseRange_ok (e : Env) (bs : Nat) (st : St)
    (herase : ∀ i, e.eraseRes i ≠ .err) :
    eraseRange e bs st = .ok { st with trace := st.trace ++ eraseTrace e bs } := by
  unfold eraseRange eraseTrace
  exact eraseFold_ok e bs herase _ st

/-- The successful page write: one write event, the device offset advances
by one page, the cursor by pagelen. -/
theorem writePhase_ok_eq (e : Env) (st : St)
    (heb : e.mtd.eb_size ≠ 0) (hres : e.writeRes st.mtdoffset = .ok) :
    writePhase e st = .ok { st with
      trace := st.trace ++ [.write st.mtdoffset (mainArgOf e st) (oobArgOf e st) .ok],
      mtdoffset := st.mtdoffset + e.mtd.min_io_size,
      writebuf := st.writebuf + e.pagelen } := by
  unfold writePhase
  rw [if_neg heb]
  dsimp only
  rw [hres]

/-- A non-EIO write failure: one write event, then goto closeall with the
state otherwise untouched. -/
theorem writePhase_err_eq (e : Env) (st : St)
    (heb : e.mtd.eb_size ≠ 0) (hres : e.writeRes st.mtdoffset = .err) :
    writePhase e st = .abort { st with
      trace := st.trace ++ [.write st.mtdoffset (mainArgOf e st) (oobArgOf e st) .err] } := by
  unfold writePhase
  rw [if_neg heb]
  dsimp only
  rw [hres]

/-- The EIO recovery path: one failed write event, the cursor rewound to
the start of the staged region with the buffer and input untouched, every
sub-unit of the aligned block erased, the failing block marked bad when
requested, and the device offset moved to blockstart + ebsize_aligned. -/
theorem writePhase_eio_eq (e : Env) (st : St)
    (heb : e.mtd.eb_size ≠ 0) (hres : e.writeRes st.mtdoffset = .eio)
    (herase : ∀ i, e.eraseRes i ≠ .err)
    (hmark : e.opts.markbad = true → e.markOk (st.mtdoffset / e.mtd.eb_size) = true) :
    writePhase e st = .ok { st with
      trace := (st.trace ++ [.write st.mtdoffset (mainArgOf e st) (oobArgOf e st) .eio])
        ++ eraseTrace e (st.blockstart.getD 0)
        ++ (if e.opts.markbad then [.markbad (st.mtdoffset / e.mtd.eb_size)] else []),
      writebuf := 0,
      mtdoffset := st.blockstart.getD 0 + e.ebsize_aligned } := by
  unfold writePhase
  rw [if_neg heb]
  dsimp only
  rw [hres]
  dsimp only
  rw [eraseRange_ok e _ _ herase]
  dsimp only
  by_cases hmb : e.opts.markbad = true
  · rw [if_pos hmb, if_pos hmb]
    have hm := hmark hmb
    rw [hm]
    simp
  · rw [if_neg hmb, if_neg hmb]
    simp

/-! Behavior of the fill phases. -/

/-- The main fill never moves the device offset, the block bookkeeping or
the cursor, and its only trace additions are progress reports. -/
theorem fillMain_fields (e : Env) (st : St) (r : FillRes) (h : fillMain e st = r) :
    (FillRes.st r).mtdoffset = st.mtdoffset ∧
    (FillRes.st r).blockstart = st.blockstart ∧
    (FillRes.st r).writebuf = st.writebuf ∧
    (FillRes.st r).baderaseblock = st.baderaseblock ∧
    succWrites (FillRes.st r).trace = succWrites st.trace ∧
    writeOffsets (FillRes.st r).trace = writeOffsets st.trace := by
  unfold fillMain at h
  dsimp only at h
  split at h
  all_goals try split at h
  all_goals try split at h
  all_goals try split at h
  all_goals try split at h
  all_goals cases h
  all_goals try split
  all_goals refine ⟨?_, ?_, ?_, ?_, ?_, ?_⟩
  all_goals first
    | rfl
    | simp [FillRes.st]

/-- The OOB fill never moves the device offset, the block bookkeeping or
the cursor, and appends nothing to the trace. -/
theorem fillOob_fields (e : Env) (st : St) (r : FillRes) (h : fillOob e st = r) :
    (FillRes.st r).mtdoffset = st.mtdoffset ∧
    (FillRes.st r).blockstart = st.blockstart ∧
    (FillRes.st r).writebuf = st.writebuf ∧
    (FillRes.st r).baderaseblock = st.baderaseblock ∧
    succWrites (FillRes.st r).trace = succWrites st.trace ∧
    writeOffsets (FillRes.st r).trace = writeOffsets st.trace := by
  unfold fillOob at h
  dsimp only at h
  split at h
  all_goals try split at h
  all_goals try split at h
  all_goals try split at h
  all_goals cases h
  all_goals refine ⟨?_, ?_, ?_, ?_, ?_, ?_⟩
  all_goals first
    | rfl
    | simp [FillRes.st]

/-! Monotonicity of the scan. -/

/-- The outer scan never moves the device offset backwards, and when it
exits normally the offset is still within the representable range. -/
theorem scanOuter_mono (e : Env) (hsize : e.mtd.size ≤ 2 ^ 63)
    (hA : e.ebsize_aligned ≤ 2 ^ 63) :
    ∀ (fuel : Nat) (st : St) (r : PR), scanOuter e fuel st = r →
      st.mtdoffset ≤ 2 ^ 63 →
      st.mtdoffset ≤ (PR.st r).mtdoffset ∧
      (∀ u : St, r = .ok u → u.mtdoffset ≤ 2 ^ 63) := by
  intro fuel
  induction fuel with
  | zero =>
    intro st r h hst
    cases h
    refine ⟨Nat.le_refl _, ?_⟩
    intro u hu
    cases hu
  | succ n ih =>
    intro st r h hst
    rw [scanOuter] at h
    by_cases hb : st.blockstart = some (maskA st.mtdoffset e.ebsize_aligned)
    · rw [if_pos hb] at h
      cases h
      refine ⟨Nat.le_refl _, ?_⟩
      intro u hu
      cases hu
      exact hst
    · rw [if_neg hb] at h
      dsimp only at h
      split at h
      · cases h
        refine ⟨?_, ?_⟩
        · split <;> exact Nat.le_refl _
        · intro u hu
          cases hu
      · split at h
        · have H := ih _ _ h
          revert H
          split <;> intro H <;> exact H hst
        · split at h
          · cases h
            refine ⟨?_, ?_⟩
            · split <;> exact Nat.le_refl _
            · intro u hu
              cases hu
          · next hA0 =>
            split at h
            · next st4 hsc =>
                cases h
                obtain ⟨_, _, _, _, _, _, s7, _, _⟩ := scanSubs_error_spec e hsc
                refine ⟨?_, ?_⟩
                · show st.mtdoffset ≤ st4.mtdoffset
                  revert s7
                  split <;> intro s7 <;> rcases s7 with s7 | s7 <;> rw [s7]
                  all_goals first
                    | exact Nat.le_refl _
                    | exact Nat.le_of_lt
                        (lt_maskA_add (le63_lt64 hst) (Nat.pos_of_ne_zero hA0) (le63_le64 hA))
                · intro u hu
                  cases hu
            · next st4 hsc =>
                obtain ⟨_, _, _, _, _, _, s7, _, _⟩ := scanSubs_ok_spec e hsc
                have hst4 : st4.mtdoffset ≤ 2 ^ 63 := by
                  revert s7
                  split <;> intro s7 <;> rcases s7 with s7 | ⟨s7, s7b⟩ <;> rw [s7]
                  all_goals first
                    | exact hst
                    | omega
                obtain ⟨H1, H2⟩ := ih _ _ h hst4
                refine ⟨Nat.le_trans ?_ H1, H2⟩
                show st.mtdoffset ≤ st4.mtdoffset
                revert s7
                split <;> intro s7 <;> rcases s7 with s7 | ⟨s7, s7b⟩ <;> rw [s7]
                all_goals first
                  | exact Nat.le_refl _
                  | exact Nat.le_of_lt
                      (lt_maskA_add (le63_lt64 hst) (Nat.pos_of_ne_zero hA0) (le63_le64 hA))

/-! Claim C7. -/

/-- C7: the claim as stated is false.  The program accepts the
block-alignment multiple 3 (process_options only rejects negative values),
and with erase blocks of 2 bytes the aligned block size is 6; at device
offset 6 the scanner mask computation mtdoffset & (~ebsize_aligned + 1)
yields 2, while floor(6 / 6) * 6 = 6. -/
theorem C7_counterexample :
    process_options_checks optsB3 = true ∧
    envB3.ebsize_aligned = 6 ∧
    maskA 6 envB3.ebsize_aligned = 2 ∧
    6 / envB3.ebsize_aligned * envB3.ebsize_aligned = 6 ∧
    maskA 6 envB3.ebsize_aligned ≠ 6 / envB3.ebsize_aligned * envB3.ebsize_aligned := by
  decide

/-- C7 (amended): whenever ebsize_aligned is a power of two — which covers
the documented blockalign values 1, 2, 4 on power-of-two erase sizes — the
scanner mask computation equals
floor(offset / alignedBlockSize) * alignedBlockSize for every 64-bit device
offset. -/
theorem C7_amended (e : Env) (off k : ℕ) (hoff : off < 2 ^ 64) (hk : k ≤ 64)
    (hA : e.ebsize_aligned = 2 ^ k) :
    maskA off e.ebsize_aligned = off / e.ebsize_aligned * e.ebsize_aligned := by
  rw [hA]
  exact maskA_pow2 hoff hk

/-- C7 witness: the amended statement evaluated on the fixture geometry
(aligned block size 4) at offset 13. -/
theorem C7_amended_witness :
    maskA 13 envA.ebsize_aligned = 13 / envA.ebsize_aligned * envA.ebsize_aligned :=
  C7_amended envA 13 2 (by norm_num) (by norm_num) (by decide)

/-! Claim C6. -/

/-- C6: the claim as stated is false.  The block-alignment multiple 3 is not
among the valid values 1, 2, 4, yet it passes the option validation (only
negative values are rejected) and the run proceeds to issue device writes
instead of being fatally rejected before any device write or erase. -/
theorem C6_counterexample :
    (optsB3.blockalign ≠ 1 ∧ optsB3.blockalign ≠ 2 ∧ optsB3.blockalign ≠ 4) ∧
    process_options_checks optsB3 = true ∧
    hasDeviceMutation (MainRes.trOf (nandwrite_main envB3 40)) = true := by
  decide

/-- Helper for C6: when the pad pre-flight or the capacity pre-flight fires,
mainChecks stops at closeall with the failure message and the untouched
initial state. -/
theorem mainChecks_precheck (e : Env) (st0 : St) (fuel : Nat)
    (hpl : ¬ e.pagelen = 0)
    (h : (e.opts.pad = false ∧ st0.imglen.tmod (e.pagelen : Int) ≠ 0) ∨
         (st0.imglen.tdiv (e.pagelen : Int)) * (e.mtd.min_io_size : Int)
            > (e.mtd.size : Int) - e.opts.mtdoffset) :
    mainChecks e st0 fuel = .closed true st0 := by
  unfold mainChecks
  rcases h with ⟨hp, hm⟩ | hc
  · rw [if_neg hpl, if_pos ⟨hp, hm⟩]
    simp [closeallMsg]
  · rw [if_neg hpl]
    by_cases hpad : e.opts.pad = false ∧ st0.imglen.tmod (e.pagelen : Int) ≠ 0
    · rw [if_pos hpad]
      simp [closeallMsg]
    · rw [if_neg hpad, if_pos hc]
      simp [closeallMsg]

/-- C6 (amended): every configuration error of the claim except an invalid
but non-negative block-alignment multiple — a negative start offset, a
negative alignment multiple, autoplace with no-ECC, pad with OOB data unless
only-OOB, a start offset that is not page-aligned, an image length that is
not a multiple of the page length without padding, or an image too large for
the remaining capacity — is detected before the write loop and causes a
fatal rejection (errmsg_die, the early -1 return, or closeall with the
failure message) with no device write or erase attempted. -/
theorem C6_amended (e : Env) (fuel : Nat)
    (hcond :
      e.opts.mtdoffset < 0 ∨
      e.opts.blockalign < 0 ∨
      (e.opts.autoplace = true ∧ e.opts.noecc = true) ∨
      (e.opts.onlyoob = false ∧ e.opts.pad = true ∧ e.opts.writeoob = true) ∨
      e.opts.mtdoffset.toNat &&& pageMask e ≠ 0 ∨
      (e.pagelen ≠ 0 ∧ e.opts.pad = false ∧ (imglen0 e).tmod (e.pagelen : Int) ≠ 0) ∨
      (e.pagelen ≠ 0 ∧
        ((imglen0 e).tdiv (e.pagelen : Int)) * (e.mtd.min_io_size : Int)
          > (e.mtd.size : Int) - e.opts.mtdoffset)) :
    (nandwrite_main e fuel = .die ∨ nandwrite_main e fuel = .earlyErr ∨
      ∃ st : St, nandwrite_main e fuel = .closed true st) ∧
    hasDeviceMutation (MainRes.trOf (nandwrite_main e fuel)) = false := by
  by_cases hv : process_options_checks e.opts = false
  · constructor
    · left
      simp [nandwrite_main, hv]
    · simp [nandwrite_main, hv, MainRes.trOf, hasDeviceMutation]
  · have hvt : process_options_checks e.opts = true := by
      revert hv
      cases process_options_checks e.opts <;> simp
    have hfacts := hvt
    unfold process_options_checks at hfacts
    simp only [Bool.and_eq_true, Bool.not_eq_true', Bool.and_eq_false_iff,
      decide_eq_true_eq] at hfacts
    obtain ⟨⟨⟨h0, h1⟩, _⟩, _⟩ := hfacts
    have hmain : ∀ r : MainRes, nandwrite_main e fuel = r →
        (r = .earlyErr ∨ (∃ st : St, r = .closed true st ∧ st.trace = [])) →
        (nandwrite_main e fuel = .die ∨ nandwrite_main e fuel = .earlyErr ∨
          ∃ st : St, nandwrite_main e fuel = .closed true st) ∧
        hasDeviceMutation (MainRes.trOf (nandwrite_main e fuel)) = false := by
      intro r hr hshape
      rcases hshape with rfl | ⟨st, rfl, htr⟩
      · exact ⟨Or.inr (Or.inl hr), by rw [hr]; rfl⟩
      · refine ⟨Or.inr (Or.inr ⟨st, hr⟩), ?_⟩
        rw [hr]
        simp [MainRes.trOf, htr, hasDeviceMutation]
    by_cases hpm : e.opts.mtdoffset.toNat &&& pageMask e ≠ 0
    · refine hmain _ ?_ (Or.inl rfl)
      simp [nandwrite_main, hv, hpm]
    · -- all validation-level conditions are now refuted; only the two
      -- pre-flight conditions can hold
      have hcond2 :
          (e.pagelen ≠ 0 ∧ e.opts.pad = false ∧ (imglen0 e).tmod (e.pagelen : Int) ≠ 0) ∨
          (e.pagelen ≠ 0 ∧
            ((imglen0 e).tdiv (e.pagelen : Int)) * (e.mtd.min_io_size : Int)
              > (e.mtd.size : Int) - e.opts.mtdoffset) := by
        rcases hcond with ha | hb | hc | hd | he | hf | hg
        · omega
        · omega
        · have := hvt
          unfold process_options_checks at this
          simp [hc.1, hc.2] at this
        · have := hvt
          unfold process_options_checks at this
          simp [hd.1, hd.2.1, hd.2.2] at this
        · exact absurd he hpm
        · exact Or.inl hf
        · exact Or.inr hg
      have hpl : ¬ e.pagelen = 0 := by
        rcases hcond2 with ⟨h, _⟩ | ⟨h, _⟩ <;> exact h
      have hpre : ∀ st0 : St,
          st0.imglen = imglen0 e →
          mainChecks e st0 fuel = .closed true st0 := by
        intro st0 hst0
        apply mainChecks_precheck e st0 fuel hpl
        rw [hst0]
        rcases hcond2 with ⟨_, h2, h3⟩ | ⟨_, h2⟩
        · exact Or.inl ⟨h2, h3⟩
        · exact Or.inr h2
      by_cases hstdin : e.stdin
      · by_cases hskip : e.opts.inputskip ≠ 0
        · have hres : nandwrite_main e fuel =
              .closed true (initSt e (imglen0 e) none e.input) := by
            simp [nandwrite_main, hv, hpm, hstdin, hskip, closeallMsg]
          exact hmain _ hres (Or.inr ⟨_, rfl, rfl⟩)
        · have hres : nandwrite_main e fuel =
              .closed true (initSt e (imglen0 e) none e.input) := by
            have h := hpre (initSt e (imglen0 e) none e.input) rfl
            simp [nandwrite_main, hv, hpm, hstdin, hskip, h]
          exact hmain _ hres (Or.inr ⟨_, rfl, rfl⟩)
      · by_cases hskip : e.opts.inputskip < 0
        · have hres : nandwrite_main e fuel =
              .closed true (initSt e (imglen0 e)
                (if e.opts.inputsize = 0 then
                  some ((e.input.length : Int) - e.opts.inputskip) else none)
                e.input) := by
            simp [nandwrite_main, hv, hpm, hstdin, hskip, closeallMsg]
          exact hmain _ hres (Or.inr ⟨_, rfl, rfl⟩)
        · have hres : nandwrite_main e fuel =
              .closed true (initSt e (imglen0 e)
                (if e.opts.inputsize = 0 then
                  some ((e.input.length : Int) - e.opts.inputskip) else none)
                (e.input.drop e.opts.inputskip.toNat)) := by
            have h := hpre (initSt e (imglen0 e)
              (if e.opts.inputsize = 0 then
                some ((e.input.length : Int) - e.opts.inputskip) else none)
              (e.input.drop e.opts.inputskip.toNat)) rfl
            simp [nandwrite_main, hv, hpm, hstdin, hskip, h]
          exact hmain _ hres (Or.inr ⟨_, rfl, rfl⟩)

/-- C6 witness: the amended theorem evaluated on a negative start offset. -/
theorem C6_amended_witness :
    (nandwrite_main envC6w 40 = .die ∨ nandwrite_main envC6w 40 = .earlyErr ∨
      ∃ st : St, nandwrite_main envC6w 40 = .closed true st) ∧
    hasDeviceMutation (MainRes.trOf (nandwrite_main envC6w 40)) = false :=
  C6_amended envC6w 40 (Or.inl (by decide))

/-! Claim C9. -/

/-- C9: evaluation of the code at the failing input.  With a regular-file
input and a nonzero input-size option, ofg_imglen is never assigned (line
345 runs only when inputsize is zero), yet the fill reports progress from
it: the model shows a progress report carrying the uninitialized value
instead of a percentage of the declared total input length. -/
theorem C9_uninitialized_total :
    envC9.stdin = false ∧ envC9.opts.inputsize ≠ 0 ∧
    Event.progress none ∈ MainRes.trOf (nandwrite_main envC9 40) := by
  decide

/-! Claim C4. -/

/-- C4: the claim as stated is false.  At this input (a regular file
declared 2 bytes long that delivers no bytes) the loop exits with the
finite input not consumed, the partial-write failure message is emitted,
but the closeall epilogue returns EXIT_SUCCESS: a zero outcome, where the
claim requires a non-zero outcome exactly when the failure conditions
hold. -/
theorem C4_counterexample :
    envC4.stdin = false ∧
    MainRes.msgOf (nandwrite_main envC4 40) = some true ∧
    MainRes.retcode (nandwrite_main envC4 40) = some 0 := by
  decide

/-- C4 (amended): after the write loop exits, the partial-write failure
message is emitted if and only if an unrecovered error occurred (the loop
aborted), or the input was finite with unconsumed remaining bytes, or the
staging buffer still holds unwritten data; but the outcome returned from
the closeall epilogue is EXIT_SUCCESS (zero) regardless, not a non-zero
value. -/
theorem C4_amended (e : Env) (fuel : Nat) :
    (∀ st0 st : St, runLoop e fuel st0 = .finished st →
      (closeallMsg e false st = true ↔
        ((e.stdin = false ∧ 0 < st.imglen) ∨ st.writebuf < st.filebuf.length))) ∧
    (∀ st0 st : St, runLoop e fuel st0 = .aborted st → closeallMsg e true st = true) ∧
    (∀ (msg : Bool) (st : St), nandwrite_main e fuel = .closed msg st →
      MainRes.retcode (nandwrite_main e fuel) = some 0) := by
  refine ⟨?_, ?_, ?_⟩
  · intro st0 st _
    simp [closeallMsg, Bool.or_eq_true, Bool.and_eq_true, Bool.not_eq_true',
      decide_eq_true_eq]
  · intro st0 st _
    simp [closeallMsg]
  · intro msg st h
    rw [h]
    rfl

/-- C4 witness: the amended theorem evaluated on the short-input run, which
aborts with UnexpectedEof and still reaches the message condition. -/
theorem C4_amended_witness :
    closeallMsg envShort true ((runLoop envShort 40 st0Short).st) = true :=
  (C4_amended envShort 40).2.1 st0Short ((runLoop envShort 40 st0Short).st) (by decide)

/-! Claim C8. -/

/-- When the loop guard of line 388 holds, the cursor is inside the device. -/
theorem loopCond_true_lt {e : Env} {st : St} (h : loopCond e st = true) :
    st.mtdoffset < e.mtd.size := by
  unfold loopCond at h
  simp only [Bool.and_eq_true, decide_eq_true_eq] at h
  exact h.2

/-- Effect envelope of the write phase: block bookkeeping, staged bytes,
input and image length are untouched; the device offset either stays, takes
one page step, or jumps to blockstart + ebsize_aligned; the cursor either
stays, advances by pagelen, or rewinds to 0; at most one write attempt at
the current offset is recorded. -/
theorem writePhase_shape (e : Env) (st : St) (r : PR) (h : writePhase e st = r) :
    (PR.st r).blockstart = st.blockstart ∧
    (PR.st r).filebuf = st.filebuf ∧
    (PR.st r).inputRem = st.inputRem ∧
    (PR.st r).imglen = st.imglen ∧
    (PR.st r).ofg_imglen = st.ofg_imglen ∧
    ((PR.st r).mtdoffset = st.mtdoffset ∨
      (PR.st r).mtdoffset = st.mtdoffset + e.mtd.min_io_size ∨
      (PR.st r).mtdoffset = st.blockstart.getD 0 + e.ebsize_aligned) ∧
    ((PR.st r).writebuf = st.writebuf ∨ (PR.st r).writebuf = st.writebuf + e.pagelen ∨
      (PR.st r).writebuf = 0) ∧
    (writeOffsets (PR.st r).trace = writeOffsets st.trace ∨
      writeOffsets (PR.st r).trace = writeOffsets st.trace ++ [st.mtdoffset]) := by
  unfold writePhase at h
  split at h
  · cases h
    exact ⟨rfl, rfl, rfl, rfl, rfl, Or.inl rfl, Or.inl rfl, Or.inl rfl⟩
  · dsimp only at h
    cases hDR : e.writeRes st.mtdoffset with
    | ok =>
      rw [hDR] at h
      dsimp only at h
      cases h
      dsimp only [PR.st]
      refine ⟨rfl, rfl, rfl, rfl, rfl, Or.inr (Or.inl rfl), Or.inr (Or.inl rfl), Or.inr ?_⟩
      simp
    | err =>
      rw [hDR] at h
      dsimp only at h
      cases h
      dsimp only [PR.st]
      refine ⟨rfl, rfl, rfl, rfl, rfl, Or.inl rfl, Or.inl rfl, Or.inr ?_⟩
      simp
    | eio =>
      rw [hDR] at h
      dsimp only at h
      split at h
      · next st3 herr =>
          cases h
          unfold eraseRange at herr
          have F := eraseFold_fields e _ _ _ _ herr
          simp only [exceptSt] at F
          obtain ⟨f1, f2, f3, f4, f5, f6, f7, f8, f9⟩ := F
          dsimp only [PR.st]
          exact ⟨f2, f3, f5, f6, f7, Or.inl f1, Or.inr (Or.inr f4), Or.inr (by simp [f9])⟩
      · next st3 hok =>
          unfold eraseRange at hok
          have F := eraseFold_fields e _ _ _ _ hok
          simp only [exceptSt] at F
          obtain ⟨f1, f2, f3, f4, f5, f6, f7, f8, f9⟩ := F
          split at h
          · split at h
            · cases h
              dsimp only [PR.st]
              exact ⟨f2, f3, f5, f6, f7, Or.inr (Or.inr rfl), Or.inr (Or.inr f4),
                Or.inr (by simp [f9])⟩
            · cases h
              dsimp only [PR.st]
              exact ⟨f2, f3, f5, f6, f7, Or.inl f1, Or.inr (Or.inr f4),
                Or.inr (by simp [f9])⟩
          · cases h
            dsimp only [PR.st]
            exact ⟨f2, f3, f5, f6, f7, Or.inr (Or.inr rfl), Or.inr (Or.inr f4),
              Or.inr (by simp [f9])⟩

/-- C8: the claim as stated is false.  The program accepts the
block-alignment multiple 0 (process_options only rejects negative values),
which makes ebsize_aligned zero: after a successful first page write the
cursor stands at 2, and the EIO recovery of the second write then sets
mtdoffset = blockstart + ebsize_aligned = 0 + 0 = 0, strictly below its
previous value, even though this is neither a rewind to a meaningful block
start nor a bad-block advance. -/
theorem C8_counterexample :
    process_options_checks envC8x.opts = true ∧
    (iterN envC8x 1 st0C8).map St.mtdoffset = some 2 ∧
    (iterN envC8x 2 st0C8).map St.mtdoffset = some 0 := by
  decide

/-- C8 (amended): provided the aligned block size is positive and device
size and aligned block size are representable (at most 2^63, as the code
keeps them in a long), the device cursor never decreases across one main
loop iteration; on a successful page write it advances by exactly the page
size, and on a completed EIO recovery it moves to blockstart +
ebsize_aligned. -/
theorem C8_amended (e : Env) (st : St)
    (hsize : e.mtd.size ≤ 2 ^ 63) (hAle : e.ebsize_aligned ≤ 2 ^ 63)
    (hA0 : 0 < e.ebsize_aligned) :
    st.mtdoffset ≤ (IterRes.st (loopIter e st)).mtdoffset ∧
    (∀ u v : St, writePhase e u = .ok v → e.writeRes u.mtdoffset = .ok →
      v.mtdoffset = u.mtdoffset + e.mtd.min_io_size) ∧
    (∀ u v : St, writePhase e u = .ok v → e.writeRes u.mtdoffset = .eio →
      v.mtdoffset = u.blockstart.getD 0 + e.ebsize_aligned) := by
  have heb : e.mtd.eb_size ≠ 0 := by
    intro h0
    rw [Env.ebsize_aligned, h0] at hA0
    simp at hA0
  refine ⟨?_, ?_, ?_⟩
  · unfold loopIter
    split
    · exact Nat.le_refl _
    · next hguard =>
      have hg : loopCond e st = true := by
        cases hc : loopCond e st
        · exact absurd hc hguard
        · rfl
      have hlt : st.mtdoffset < e.mtd.size := loopCond_true_lt hg
      have hst : st.mtdoffset ≤ 2 ^ 63 := Nat.le_of_lt (Nat.lt_of_lt_of_le hlt hsize)
      split
      · next w hsc =>
          exact (scanOuter_mono e hsize hAle _ _ _ hsc hst).1
      · next w hsc =>
          exact (scanOuter_mono e hsize hAle _ _ _ hsc hst).1
      · next w hsc =>
          exact (scanOuter_mono e hsize hAle _ _ _ hsc hst).1
      · next w hsc =>
          have M := scanOuter_mono e hsize hAle _ _ _ hsc hst
          have hw : st.mtdoffset ≤ w.mtdoffset := M.1
          have hw63 : w.mtdoffset ≤ 2 ^ 63 := M.2 w rfl
          have hbs := scanOuter_post e _ _ _ hsc
          split
          · next w1 hf =>
              have F := fillMain_fields e w _ hf
              exact Nat.le_trans hw (Nat.le_of_eq F.1.symm)
          · next w1 hf =>
              have F := fillMain_fields e w _ hf
              exact Nat.le_trans hw (Nat.le_of_eq F.1.symm)
          · next w1 hf =>
              have F := fillMain_fields e w _ hf
              split
              · next w2 hg2 =>
                  have G := fillOob_fields e w1 _ hg2
                  exact Nat.le_trans hw (Nat.le_of_eq (F.1.symm.trans G.1.symm))
              · next w2 hg2 =>
                  have G := fillOob_fields e w1 _ hg2
                  exact Nat.le_trans hw (Nat.le_of_eq (F.1.symm.trans G.1.symm))
              · next w2 hg2 =>
                  have G := fillOob_fields e w1 _ hg2
                  have hw2 : w2.mtdoffset = w.mtdoffset := G.1.trans F.1
                  have hbs2 : w2.blockstart = w.blockstart := G.2.1.trans F.2.1
                  have hgd : w2.blockstart.getD 0 = maskA w.mtdoffset e.ebsize_aligned := by
                    rw [hbs2, hbs]
                    rfl
                  have hK := lt_maskA_add (le63_lt64 hw63) hA0 (le63_le64 hAle)
                  split
                  all_goals rename_i v hwp
                  all_goals have S := writePhase_shape e w2 _ hwp
                  all_goals have hm3 := S.2.2.2.2.2.1
                  all_goals dsimp only [PR.st] at hm3
                  all_goals rw [hgd] at hm3
                  all_goals show st.mtdoffset ≤ v.mtdoffset
                  all_goals omega
  · intro u v hwp hres
    rw [writePhase_ok_eq e u heb hres] at hwp
    cases hwp
    rfl
  · intro u v hwp hres
    unfold writePhase at hwp
    rw [if_neg heb] at hwp
    dsimp only at hwp
    rw [hres] at hwp
    dsimp only at hwp
    split at hwp
    · cases hwp
    · split at hwp
      · split at hwp
        · cases hwp
          rfl
        · cases hwp
      · cases hwp
        rfl

/-- C8 witness: the amended monotonicity evaluated on the all-good fixture
run at its initial loop state. -/
theorem C8_amended_witness :
    st0A.mtdoffset ≤ (IterRes.st (loopIter envA st0A)).mtdoffset :=
  (C8_amended envA st0A (by decide) (by decide) (by decide)).1

/-! Claim C2. -/

/-- When the outer scan starts with the cursor rewound to 0, it never
resets the staging buffer (the line 403 reset is guarded by
writebuf != filebuf), so the staged bytes survive the rescan. -/
theorem scanOuter_rewind (e : Env) :
    ∀ (fuel : Nat) (st : St) (r : PR), scanOuter e fuel st = r → st.writebuf = 0 →
      (PR.st r).writebuf = 0 ∧ (PR.st r).filebuf = st.filebuf := by
  intro fuel
  induction fuel with
  | zero =>
    intro st r h hw
    cases h
    exact ⟨hw, rfl⟩
  | succ n ih =>
    intro st r h hw
    rw [scanOuter] at h
    by_cases hb : st.blockstart = some (maskA st.mtdoffset e.ebsize_aligned)
    · rw [if_pos hb] at h
      cases h
      exact ⟨hw, rfl⟩
    · rw [if_neg hb] at h
      dsimp only at h
      rw [if_neg (show ¬ st.writebuf ≠ 0 from by simp [hw])] at h
      dsimp only at h
      split at h
      · cases h
        exact ⟨hw, rfl⟩
      · split at h
        · obtain ⟨g1, g2⟩ := ih _ _ h (by exact hw)
          exact ⟨g1, g2⟩
        · split at h
          · cases h
            exact ⟨hw, rfl⟩
          · split at h
            · next st4 hsc =>
                cases h
                obtain ⟨s1, s2, _⟩ := scanSubs_error_spec e hsc
                exact ⟨s2.trans hw, s1⟩
            · next st4 hsc =>
                obtain ⟨s1, s2, _⟩ := scanSubs_ok_spec e hsc
                obtain ⟨g1, g2⟩ := ih _ _ h (by exact s2.trans hw)
                exact ⟨g1, g2.trans s1⟩

/-- When a full page is already staged ahead of the cursor, the main fill
of line 448 is a no-op. -/
theorem fillMain_skip (e : Env) (st : St)
    (h : st.writebuf + e.mtd.min_io_size ≤ st.filebuf.length) :
    fillMain e st = .ok st := by
  unfold fillMain
  rw [if_neg (by omega)]

/-- Without the OOB option the OOB fill is a no-op. -/
theorem fillOob_off (e : Env) (st : St) (h : e.opts.writeoob = false) :
    fillOob e st = .ok st := by
  unfold fillOob
  rw [if_neg (by simp [h])]

/-- When a full page plus its OOB region is already staged ahead of the
cursor, the OOB fill is a no-op whatever the OOB option. -/
theorem fillOob_skip (e : Env) (st : St)
    (h : st.writebuf + e.mtd.min_io_size + e.mtd.oob_size ≤ st.filebuf.length) :
    fillOob e st = .ok st := by
  unfold fillOob
  by_cases hw : e.opts.writeoob = true
  · rw [if_pos hw]
    dsimp only
    rw [if_neg (by omega)]
  · rw [if_neg hw]

/-- C2 (confirmed): on a write failing with EIO (and the erases and the
optional markbad succeeding), the recovery erases every erase-block-sized
sub-unit of the current aligned block, marks the failing block bad exactly
when requested, rewinds the cursor to the start of the staged region with
the staged bytes and the unread input untouched, and moves the device
offset to blockstart + ebsize_aligned.  Moreover the following rescan
leaves the rewound buffer intact and skips both fills — with or without
the OOB option — so every page drawn from the staged region during the
replay is byte-for-byte the bytes staged before the failure, and the next
write attempt carries the bytes from the start of the region: when the
failure hit the first page, exactly the failed write's main and OOB
payloads. -/
theorem C2_eio_recovery (e : Env) (st : St) (bs : Nat)
    (hbs : st.blockstart = some bs)
    (heb : e.mtd.eb_size ≠ 0)
    (heio : e.writeRes st.mtdoffset = .eio)
    (herase : ∀ i, e.eraseRes i ≠ .err)
    (hmark : e.opts.markbad = true → e.markOk (st.mtdoffset / e.mtd.eb_size) = true) :
    ∃ st' : St, writePhase e st = .ok st' ∧
      st'.writebuf = 0 ∧
      st'.filebuf = st.filebuf ∧
      st'.inputRem = st.inputRem ∧
      st'.blockstart = st.blockstart ∧
      st'.mtdoffset = bs + e.ebsize_aligned ∧
      st'.trace = (st.trace ++ [.write st.mtdoffset (mainArgOf e st) (oobArgOf e st) .eio])
        ++ eraseTrace e bs
        ++ (if e.opts.markbad then [.markbad (st.mtdoffset / e.mtd.eb_size)] else []) ∧
      (∀ st'' : St, scanOuter e (e.mtd.size + 2) st' = .ok st'' →
        e.pagelen ≤ st.filebuf.length →
        st''.filebuf = st.filebuf ∧ st''.writebuf = 0 ∧
        (∀ c : ℕ, (st''.filebuf.drop c).take e.mtd.min_io_size =
          (st.filebuf.drop c).take e.mtd.min_io_size) ∧
        fillMain e st'' = .ok st'' ∧ fillOob e st'' = .ok st'' ∧
        mainArgOf e st'' =
          (if e.opts.onlyoob then none else some (st.filebuf.take e.mtd.min_io_size)) ∧
        (st.writebuf = 0 →
          mainArgOf e st'' = mainArgOf e st ∧ oobArgOf e st'' = oobArgOf e st)) := by
  refine ⟨_, writePhase_eio_eq e st heb heio herase hmark, rfl, rfl, rfl, rfl, ?_, ?_, ?_⟩
  · rw [hbs]
    rfl
  · rw [hbs]
    rfl
  · intro st'' hsc hlen
    have hplmin : e.mtd.min_io_size ≤ e.pagelen := by
      rw [Env.pagelen]
      exact Nat.le_add_right _ _
    have R := scanOuter_rewind e _ _ _ hsc rfl
    have hwb : st''.writebuf = 0 := R.1
    have hfb : st''.filebuf = st.filebuf := R.2
    have hO : fillOob e st'' = .ok st'' := by
      by_cases hw : e.opts.writeoob = true
      · refine fillOob_skip e st'' ?_
        have hple : e.pagelen = e.mtd.min_io_size + e.mtd.oob_size := by
          simp [Env.pagelen, hw]
        rw [hwb, hfb]
        omega
      · refine fillOob_off e st'' ?_
        cases hx : e.opts.writeoob
        · rfl
        · exact absurd hx hw
    refine ⟨hfb, hwb, ?_, ?_, hO, ?_, ?_⟩
    · intro c
      rw [hfb]
    · exact fillMain_skip e st'' (by rw [hwb, hfb]; omega)
    · unfold mainArgOf
      rw [hwb, hfb]
      simp
    · intro hw0
      constructor
      · unfold mainArgOf
        rw [hwb, hfb, hw0]
      · unfold oobArgOf
        rw [hwb, hfb, hw0]

/-- C2 witness: the recovery theorem evaluated on an EIO injected at the
first page of block 0, with one page staged. -/
theorem C2_eio_recovery_witness :
    ∃ st' : St, writePhase envEio0 stC2 = .ok st' ∧ st'.writebuf = 0 ∧
      st'.filebuf = stC2.filebuf ∧ st'.mtdoffset = 0 + envEio0.ebsize_aligned := by
  obtain ⟨st', h1, h2, h3, _, _, h6, _, _⟩ :=
    C2_eio_recovery envEio0 stC2 0 rfl (by decide) (by decide)
      (fun i h => DRes.noConfusion h) (fun hmb => absurd hmb (by decide))
  exact ⟨st', h1, h2, h3, h6⟩

/-! Claim C5. -/

/-- C5 (confirmed): a page fill that can only obtain a non-zero short count
of main-data bytes aborts with UnexpectedEof before the page is written
when pad is off; with pad on it completes the page with 0xff filler, so the
page payload the write call would send is exactly the remaining input bytes
followed by 0xff up to the page size; and a short OOB total is
UnexpectedEof regardless of the pad setting — the OOB fill never pads. -/
theorem C5_short_reads (e : Env) (st : St)
    (hcur : st.writebuf = st.filebuf.length)
    (h0 : 0 < st.inputRem.length)
    (hshort : st.inputRem.length < e.mtd.min_io_size) :
    (e.opts.pad = false → fillMain e st = .abort st) ∧
    (e.opts.pad = true →
      ∃ st1 : St, fillMain e st = .ok st1 ∧
        st1.filebuf = st.filebuf ++
          (st.inputRem ++ List.replicate (e.mtd.min_io_size - st.inputRem.length) 0xff) ∧
        st1.writebuf = st.writebuf ∧
        st1.inputRem = [] ∧
        (e.opts.onlyoob = false →
          mainArgOf e st1 = some (st.inputRem ++
            List.replicate (e.mtd.min_io_size - st.inputRem.length) 0xff))) ∧
    (∀ u : St, e.opts.writeoob = true →
      u.writebuf + e.mtd.min_io_size ≤ u.filebuf.length →
      u.filebuf.length - (u.writebuf + e.mtd.min_io_size) + u.inputRem.length <
        e.mtd.oob_size →
      fillOob e u = .abort u) := by
  refine ⟨?_, ?_, ?_⟩
  · intro hpad
    unfold fillMain
    rw [if_pos (show st.writebuf + e.mtd.min_io_size > st.filebuf.length from by omega)]
    dsimp only
    rw [show st.filebuf.length - st.writebuf = 0 from by omega]
    rw [if_neg (show ¬ min e.mtd.min_io_size (0 + st.inputRem.length) = 0 from by omega)]
    rw [if_pos (And.intro
      (show min e.mtd.min_io_size (0 + st.inputRem.length) < e.mtd.min_io_size from by omega)
      hpad)]
  · intro hpad
    have hmr2 : min e.mtd.min_io_size (0 + st.inputRem.length) = st.inputRem.length := by
      omega
    have hlen : (st.inputRem ++
        List.replicate (e.mtd.min_io_size - st.inputRem.length) 0xff).length =
        e.mtd.min_io_size := by
      simp
      omega
    have harg : ∀ st1 : St,
        st1.filebuf = st.filebuf ++
          (st.inputRem ++ List.replicate (e.mtd.min_io_size - st.inputRem.length) 0xff) →
        st1.writebuf = st.writebuf →
        e.opts.onlyoob = false →
        mainArgOf e st1 = some (st.inputRem ++
          List.replicate (e.mtd.min_io_size - st.inputRem.length) 0xff) := by
      intro st1 hf hw honly
      unfold mainArgOf
      rw [if_neg (by simp [honly])]
      rw [hf, hw, hcur, List.drop_left]
      rw [List.take_of_length_le (Nat.le_of_eq hlen)]
    by_cases hstdin : e.stdin = false
    · have hEq : fillMain e st = .ok { st with
          filebuf := st.filebuf ++
            (st.inputRem ++ List.replicate (e.mtd.min_io_size - st.inputRem.length) 0xff),
          inputRem := [],
          imglen := st.imglen - (st.inputRem.length : Int),
          trace := st.trace ++ [.progress (st.ofg_imglen.map (fun t =>
            ((t - (st.imglen - (st.inputRem.length : Int))) * 100).tdiv t))] } := by
        unfold fillMain
        rw [if_pos (show st.writebuf + e.mtd.min_io_size > st.filebuf.length from by omega)]
        dsimp only
        rw [show st.filebuf.length - st.writebuf = 0 from by omega]
        rw [if_neg (show ¬ min e.mtd.min_io_size (0 + st.inputRem.length) = 0 from by omega)]
        rw [if_neg (show ¬ (min e.mtd.min_io_size (0 + st.inputRem.length) <
          e.mtd.min_io_size ∧ e.opts.pad = false) from by simp [hpad])]
        rw [if_pos hstdin]
        rw [hmr2, Nat.sub_zero, List.take_length, List.drop_length]
      exact ⟨_, hEq, rfl, rfl, rfl, fun honly => harg _ rfl rfl honly⟩
    · have hstd : e.stdin = true := by
        cases hx : e.stdin
        · exact absurd hx hstdin
        · rfl
      have hEq : fillMain e st = .ok { st with
          filebuf := st.filebuf ++
            (st.inputRem ++ List.replicate (e.mtd.min_io_size - st.inputRem.length) 0xff),
          inputRem := [],
          imglen := 0 } := by
        unfold fillMain
        rw [if_pos (show st.writebuf + e.mtd.min_io_size > st.filebuf.length from by omega)]
        dsimp only
        rw [show st.filebuf.length - st.writebuf = 0 from by omega]
        rw [if_neg (show ¬ min e.mtd.min_io_size (0 + st.inputRem.length) = 0 from by omega)]
        rw [if_neg (show ¬ (min e.mtd.min_io_size (0 + st.inputRem.length) <
          e.mtd.min_io_size ∧ e.opts.pad = false) from by simp [hpad])]
        rw [if_neg (show ¬ e.stdin = false from by simp [hstd])]
        rw [if_pos (show min e.mtd.min_io_size (0 + st.inputRem.length) <
          e.mtd.min_io_size from by omega)]
        rw [hmr2, Nat.sub_zero, List.take_length, List.drop_length]
      exact ⟨_, hEq, rfl, rfl, rfl, fun honly => harg _ rfl rfl honly⟩
  · intro u hoob hcap hshort2
    unfold fillOob
    rw [if_pos hoob]
    dsimp only
    rw [if_pos (show u.writebuf + e.mtd.min_io_size + e.mtd.oob_size > u.filebuf.length
      from by omega)]
    rw [if_pos (show min e.mtd.oob_size
      (u.filebuf.length - (u.writebuf + e.mtd.min_io_size) + u.inputRem.length) <
        e.mtd.oob_size from by omega)]

/-- C5 witness: the pad-off conjunct evaluated on a one-byte file with
2-byte pages: the fill aborts with UnexpectedEof. -/
theorem C5_short_reads_witness :
    fillMain envShort st0Short = .abort st0Short :=
  (C5_short_reads envShort st0Short rfl (by decide) (by decide)).1 rfl

/-! Claim C3. -/

/-- With blockalign 1 the sub-unit scan is a single query of the block at
bs / ebsize_aligned; when it reports good the state only records the
query. -/
theorem scanSubs_one_good (e : Env) (bs : Nat) (st : St)
    (hba : e.ba = 1)
    (hq : e.isBad (bs / e.ebsize_aligned) = some false)
    (hbe : st.baderaseblock = false) :
    scanSubs e bs 1 bs st =
      .ok { st with trace := st.trace ++ [.isbadQ (bs / e.ebsize_aligned) false] } := by
  rw [scanSubs, hq]
  dsimp only
  rw [hbe]
  rw [hba, Nat.div_one]
  simp

/-- With blockalign 1 a bad block moves the cursor to bs + ebsize_aligned,
or aborts when that leaves the device. -/
theorem scanSubs_one_bad (e : Env) (bs : Nat) (st : St)
    (hba : e.ba = 1)
    (hq : e.isBad (bs / e.ebsize_aligned) = some true)
    (hbe : st.baderaseblock = false) :
    scanSubs e bs 1 bs st =
      (if e.mtd.size < bs + e.ebsize_aligned
        then .error
          { st with
              trace := st.trace ++ [.isbadQ (bs / e.ebsize_aligned) true],
              baderaseblock := true,
              mtdoffset := bs + e.ebsize_aligned }
        else .ok
          { st with
              trace := st.trace ++ [.isbadQ (bs / e.ebsize_aligned) true],
              baderaseblock := true,
              mtdoffset := bs + e.ebsize_aligned }) := by
  rw [scanSubs, hq]
  dsimp only
  rw [hbe]
  rw [hba, Nat.div_one]
  simp

/-- With blockalign 1, bad-block skipping on and a power-of-two aligned
block size, a normal scan exit lands on a block the device reports good:
the scan re-runs whenever the mask moves, so any bad block is skipped
before the exit. -/
theorem scanOuter_good (e : Env) (k : ℕ)
    (hba : e.opts.blockalign = 1) (hns : e.opts.noskipbad = false)
    (hsize : e.mtd.size ≤ 2 ^ 63) (hk : k ≤ 63) (hA : e.ebsize_aligned = 2 ^ k) :
    ∀ (fuel : Nat) (st u : St), scanOuter e fuel st = .ok u →
      st.mtdoffset ≤ 2 ^ 63 →
      (st.blockstart = some (maskA st.mtdoffset e.ebsize_aligned) →
        e.isBad (maskA st.mtdoffset e.ebsize_aligned / e.ebsize_aligned) = some false) →
      e.isBad (maskA u.mtdoffset e.ebsize_aligned / e.ebsize_aligned) = some false := by
  have hba1 : e.ba = 1 := by
    rw [Env.ba, hba]
    rfl
  have hA0 : 0 < e.ebsize_aligned := by
    rw [hA]
    exact pow_pos (by norm_num) k
  intro fuel
  induction fuel with
  | zero =>
    intro st u h hst hinv
    rw [scanOuter] at h
    cases h
  | succ n ih =>
    intro st u h hst hinv
    rw [scanOuter] at h
    by_cases hb : st.blockstart = some (maskA st.mtdoffset e.ebsize_aligned)
    · rw [if_pos hb] at h
      cases h
      exact hinv hb
    · rw [if_neg hb] at h
      dsimp only at h
      rw [if_neg (fun hc => absurd hc.2 (show e.ebsize_aligned ≠ 0 from by omega))] at h
      rw [if_neg (show ¬ e.opts.noskipbad = true from by simp [hns])] at h
      rw [if_neg (show ¬ e.ebsize_aligned = 0 from by omega)] at h
      rw [hba1] at h
      have keyOk : ∀ st3 st4 : St,
          scanSubs e (maskA st.mtdoffset e.ebsize_aligned) 1
            (maskA st.mtdoffset e.ebsize_aligned) st3 = .ok st4 →
          st3.baderaseblock = false →
          st3.blockstart = some (maskA st.mtdoffset e.ebsize_aligned) →
          st3.mtdoffset = st.mtdoffset →
          scanOuter e n st4 = .ok u →
          e.isBad (maskA u.mtdoffset e.ebsize_aligned / e.ebsize_aligned) = some false := by
        intro st3 st4 heq h3b h3bs h3m hrec
        cases hq : e.isBad (maskA st.mtdoffset e.ebsize_aligned / e.ebsize_aligned) with
        | none =>
          rw [scanSubs, hq] at heq
          dsimp only at heq
          cases heq
        | some b =>
          cases b with
          | false =>
            rw [scanSubs_one_good e _ st3 hba1 hq h3b] at heq
            cases heq
            refine ih _ _ hrec ?_ ?_
            · show st3.mtdoffset ≤ 2 ^ 63
              rw [h3m]
              exact hst
            · intro _
              show e.isBad (maskA st3.mtdoffset e.ebsize_aligned / e.ebsize_aligned) =
                some false
              rw [h3m]
              exact hq
          | true =>
            rw [scanSubs_one_bad e _ st3 hba1 hq h3b] at heq
            by_cases hsz :
                e.mtd.size < maskA st.mtdoffset e.ebsize_aligned + e.ebsize_aligned
            · rw [if_pos hsz] at heq
              cases heq
            · rw [if_neg hsz] at heq
              cases heq
              refine ih _ _ hrec ?_ ?_
              · show maskA st.mtdoffset e.ebsize_aligned + e.ebsize_aligned ≤ 2 ^ 63
                omega
              · intro hbs'
                have hbs2 : st3.blockstart = some (maskA
                    (maskA st.mtdoffset e.ebsize_aligned + e.ebsize_aligned)
                    e.ebsize_aligned) := hbs'
                rw [h3bs] at hbs2
                have e1 : maskA st.mtdoffset e.ebsize_aligned =
                    st.mtdoffset / 2 ^ k * 2 ^ k := by
                  rw [hA]
                  exact maskA_pow2 (le63_lt64 hst) (by omega)
                have hm2 : maskA (maskA st.mtdoffset e.ebsize_aligned + e.ebsize_aligned)
                    e.ebsize_aligned =
                    maskA st.mtdoffset e.ebsize_aligned + e.ebsize_aligned := by
                  have hbd : st.mtdoffset / 2 ^ k * 2 ^ k + 2 ^ k ≤ e.mtd.size := by
                    rw [← e1, ← hA]
                    omega
                  rw [e1, hA]
                  exact maskA_pow2_self (le63_lt64 (Nat.le_trans hbd hsize)) (by omega)
                    (Nat.dvd_add (dvd_mul_left _ _) dvd_rfl)
                rw [hm2] at hbs2
                exact absurd (Option.some.inj hbs2) (by omega)
      by_cases hwz : st.writebuf ≠ 0
      · rw [if_pos hwz] at h
        split at h
        · cases h
        · next st4 heq => exact keyOk _ st4 heq rfl rfl rfl h
      · rw [if_neg hwz] at h
        split at h
        · cases h
        · next st4 heq => exact keyOk _ st4 heq rfl rfl rfl h

/-- One iteration with bad-block skipping on, blockalign 1 and a
power-of-two aligned block size: every write attempt the iteration adds is
at an offset whose block the device reports good, and the good-block fact
is carried to the next iteration. -/
theorem loopIter_good (e : Env) (k : ℕ)
    (hba : e.opts.blockalign = 1) (hns : e.opts.noskipbad = false)
    (hsize : e.mtd.size ≤ 2 ^ 63) (hk : k ≤ 63) (hA : e.ebsize_aligned = 2 ^ k)
    (st : St) (r : IterRes) (h : loopIter e st = r)
    (hinv : st.blockstart = some (maskA st.mtdoffset e.ebsize_aligned) →
      e.isBad (maskA st.mtdoffset e.ebsize_aligned / e.ebsize_aligned) = some false) :
    (∀ off ∈ writeOffsets (IterRes.st r).trace,
      off ∈ writeOffsets st.trace ∨ e.isBad (off / e.ebsize_aligned) = some false) ∧
    (∀ v : St, r = .cont v →
      (v.blockstart = some (maskA v.mtdoffset e.ebsize_aligned) →
        e.isBad (maskA v.mtdoffset e.ebsize_aligned / e.ebsize_aligned) = some false)) := by
  have hAle : e.ebsize_aligned ≤ 2 ^ 63 := by
    rw [hA]
    exact Nat.pow_le_pow_right (by norm_num) hk
  unfold loopIter at h
  split at h
  · cases h
    exact ⟨fun off hoff => Or.inl hoff, fun v hv => by cases hv⟩
  · next hguard =>
    have hg : loopCond e st = true := by
      cases hc : loopCond e st
      · exact absurd hc hguard
      · rfl
    have hst : st.mtdoffset ≤ 2 ^ 63 :=
      Nat.le_of_lt (Nat.lt_of_lt_of_le (loopCond_true_lt hg) hsize)
    split at h
    · next w hsc =>
        cases h
        have F5 : writeOffsets w.trace = writeOffsets st.trace :=
          (scanOuter_fields e _ _ _ hsc).2.2.2.2.1
        refine ⟨fun off hoff => Or.inl ?_, fun v hv => by cases hv⟩
        have hoff2 : off ∈ writeOffsets w.trace := hoff
        rw [F5] at hoff2
        exact hoff2
    · next w hsc =>
        cases h
        have F5 : writeOffsets w.trace = writeOffsets st.trace :=
          (scanOuter_fields e _ _ _ hsc).2.2.2.2.1
        refine ⟨fun off hoff => Or.inl ?_, fun v hv => by cases hv⟩
        have hoff2 : off ∈ writeOffsets w.trace := hoff
        rw [F5] at hoff2
        exact hoff2
    · next w hsc =>
        cases h
        have F5 : writeOffsets w.trace = writeOffsets st.trace :=
          (scanOuter_fields e _ _ _ hsc).2.2.2.2.1
        refine ⟨fun off hoff => Or.inl ?_, fun v hv => by cases hv⟩
        have hoff2 : off ∈ writeOffsets w.trace := hoff
        rw [F5] at hoff2
        exact hoff2
    · next w hsc =>
        have F5 : writeOffsets w.trace = writeOffsets st.trace :=
          (scanOuter_fields e _ _ _ hsc).2.2.2.2.1
        have hgood : e.isBad (maskA w.mtdoffset e.ebsize_aligned / e.ebsize_aligned) =
            some false := scanOuter_good e k hba hns hsize hk hA _ _ _ hsc hst hinv
        have hwbs : w.blockstart = some (maskA w.mtdoffset e.ebsize_aligned) :=
          scanOuter_post e _ _ _ hsc
        have hw63 : w.mtdoffset ≤ 2 ^ 63 :=
          (scanOuter_mono e hsize hAle _ _ _ hsc hst).2 w rfl
        have hdivEq : maskA w.mtdoffset e.ebsize_aligned / e.ebsize_aligned =
            w.mtdoffset / e.ebsize_aligned := by
          rw [hA, maskA_pow2 (le63_lt64 hw63) (by omega)]
          exact Nat.mul_div_cancel _ (pow_pos (by norm_num) k)
        split at h
        · next w1 hf =>
            cases h
            have G5 : writeOffsets w1.trace = writeOffsets w.trace :=
              (fillMain_fields e w _ hf).2.2.2.2.2
            refine ⟨fun off hoff => Or.inl ?_, fun v hv => by cases hv⟩
            have hoff2 : off ∈ writeOffsets w1.trace := hoff
            rw [G5, F5] at hoff2
            exact hoff2
        · next w1 hf =>
            cases h
            have G5 : writeOffsets w1.trace = writeOffsets w.trace :=
              (fillMain_fields e w _ hf).2.2.2.2.2
            refine ⟨fun off hoff => Or.inl ?_, fun v hv => by cases hv⟩
            have hoff2 : off ∈ writeOffsets w1.trace := hoff
            rw [G5, F5] at hoff2
            exact hoff2
        · next w1 hf =>
            have G := fillMain_fields e w _ hf
            split at h
            · next w2 hg2 =>
                cases h
                have G5 : writeOffsets w2.trace = writeOffsets w.trace :=
                  ((fillOob_fields e w1 _ hg2).2.2.2.2.2).trans G.2.2.2.2.2
                refine ⟨fun off hoff => Or.inl ?_, fun v hv => by cases hv⟩
                have hoff2 : off ∈ writeOffsets w2.trace := hoff
                rw [G5, F5] at hoff2
                exact hoff2
            · next w2 hg2 =>
                cases h
                have G5 : writeOffsets w2.trace = writeOffsets w.trace :=
                  ((fillOob_fields e w1 _ hg2).2.2.2.2.2).trans G.2.2.2.2.2
                refine ⟨fun off hoff => Or.inl ?_, fun v hv => by cases hv⟩
                have hoff2 : off ∈ writeOffsets w2.trace := hoff
                rw [G5, F5] at hoff2
                exact hoff2
            · next w2 hg2 =>
                have G2 := fillOob_fields e w1 _ hg2
                have hw2m : w2.mtdoffset = w.mtdoffset := by
                  have a : w2.mtdoffset = w1.mtdoffset := G2.1
                  have b : w1.mtdoffset = w.mtdoffset := G.1
                  exact a.trans b
                have hw2b : w2.blockstart = w.blockstart := by
                  have a : w2.blockstart = w1.blockstart := G2.2.1
                  have b : w1.blockstart = w.blockstart := G.2.1
                  exact a.trans b
                have hw2t : writeOffsets w2.trace = writeOffsets st.trace := by
                  have a : writeOffsets w2.trace = writeOffsets w1.trace := G2.2.2.2.2.2
                  have b : writeOffsets w1.trace = writeOffsets w.trace := G.2.2.2.2.2
                  rw [a, b, F5]
                have hgood2 : e.isBad (w2.mtdoffset / e.ebsize_aligned) = some false := by
                  rw [hw2m, ← hdivEq]
                  exact hgood
                have key1 : ∀ v : St,
                    (writeOffsets v.trace = writeOffsets w2.trace ∨
                      writeOffsets v.trace = writeOffsets w2.trace ++ [w2.mtdoffset]) →
                    ∀ off ∈ writeOffsets v.trace,
                      off ∈ writeOffsets st.trace ∨
                        e.isBad (off / e.ebsize_aligned) = some false := by
                  intro v S8 off hoff
                  rcases S8 with S8 | S8
                  · rw [S8, hw2t] at hoff
                    exact Or.inl hoff
                  · rw [S8] at hoff
                    rcases List.mem_append.mp hoff with hl | hr
                    · rw [hw2t] at hl
                      exact Or.inl hl
                    · have heq2 : off = w2.mtdoffset := List.mem_singleton.mp hr
                      rw [heq2]
                      exact Or.inr hgood2
                split at h
                · next v hwp =>
                    cases h
                    have S := writePhase_shape e w2 _ hwp
                    refine ⟨key1 v S.2.2.2.2.2.2.2, ?_⟩
                    intro v' hv
                    cases hv
                    intro hvb
                    have S1 : v.blockstart = w2.blockstart := S.1
                    have hvb2 : some (maskA w.mtdoffset e.ebsize_aligned) =
                        some (maskA v.mtdoffset e.ebsize_aligned) := by
                      rw [← hwbs, ← hw2b, ← S1]
                      exact hvb
                    rw [← Option.some.inj hvb2]
                    exact hgood
                · next v hwp =>
                    cases h
                    have S := writePhase_shape e w2 _ hwp
                    exact ⟨key1 v S.2.2.2.2.2.2.2, fun v' hv => by cases hv⟩
                · next v hwp =>
                    cases h
                    have S := writePhase_shape e w2 _ hwp
                    exact ⟨key1 v S.2.2.2.2.2.2.2, fun v' hv => by cases hv⟩
                · next v hwp =>
                    cases h
                    have S := writePhase_shape e w2 _ hwp
                    exact ⟨key1 v S.2.2.2.2.2.2.2, fun v' hv => by cases hv⟩

/-- C3 (amended): with bad-block skipping enabled (noskipbad off), the
block-alignment multiple 1 and a power-of-two aligned block size (device
size representable in a long), every page write attempt of a whole run is
at an offset whose containing aligned block the device reported good: bad
aligned blocks are skipped before any data is written to them.  As stated
the claim is false for blockalign > 1: the scan then queries
mtd_is_bad(offs / ebsize_aligned) instead of the sub-unit index, so a bad
erase-block-sized sub-unit inside an aligned block is never seen (see the
counterexample). -/
theorem C3_amended (e : Env) (k : ℕ)
    (hba : e.opts.blockalign = 1) (hns : e.opts.noskipbad = false)
    (hsize : e.mtd.size ≤ 2 ^ 63) (hk : k ≤ 63) (hA : e.ebsize_aligned = 2 ^ k) :
    ∀ (fuel : Nat) (st : St),
      (st.blockstart = some (maskA st.mtdoffset e.ebsize_aligned) →
        e.isBad (maskA st.mtdoffset e.ebsize_aligned / e.ebsize_aligned) = some false) →
      (∀ off ∈ writeOffsets st.trace, e.isBad (off / e.ebsize_aligned) = some false) →
      ∀ off ∈ writeOffsets (RunRes.st (runLoop e fuel st)).trace,
        e.isBad (off / e.ebsize_aligned) = some false := by
  intro fuel
  induction fuel with
  | zero =>
    intro st hinv hgood off hoff
    exact hgood off hoff
  | succ n ih =>
    intro st hinv hgood off hoff
    rw [runLoop] at hoff
    split at hoff
    · next s heq =>
        have L := loopIter_good e k hba hns hsize hk hA st _ heq hinv
        exact ih s (L.2 s rfl)
          (fun o ho => (L.1 o (by exact ho)).elim (hgood o) id) off hoff
    · next s heq =>
        have L := loopIter_good e k hba hns hsize hk hA st _ heq hinv
        exact (L.1 off (by exact hoff)).elim (hgood off) id
    · next s heq =>
        have L := loopIter_good e k hba hns hsize hk hA st _ heq hinv
        exact (L.1 off (by exact hoff)).elim (hgood off) id
    · next s heq =>
        have L := loopIter_good e k hba hns hsize hk hA st _ heq hinv
        exact (L.1 off (by exact hoff)).elim (hgood off) id
    · next s heq =>
        have L := loopIter_good e k hba hns hsize hk hA st _ heq hinv
        exact (L.1 off (by exact hoff)).elim (hgood off) id

/-- C3: the claim as stated is false for blockalign > 1.  With 4-byte
erase blocks aligned in pairs (aligned block size 8) and erase block 1
(device offsets 4..7) bad, the scan of aligned block [0, 8) calls
mtd_is_bad with offs / ebsize_aligned — index 0 for both sub-units — so
the bad sub-unit is never queried and the run issues a page write at
offset 4, inside the aligned block that contains the bad sub-unit. -/
theorem C3_counterexample :
    envBadBa2.opts.noskipbad = false ∧
    envBadBa2.isBad (4 / envBadBa2.mtd.eb_size) = some true ∧
    (4 : ℕ) ∈ writeOffsets (MainRes.trOf (nandwrite_main envBadBa2 40)) := by
  decide

/-- C3 witness: the amended theorem evaluated on a device whose block 0 is
bad: the write the run issues at offset 4 is in a good block. -/
theorem C3_amended_witness :
    envBad1.isBad (4 / envBad1.ebsize_aligned) = some false :=
  C3_amended envBad1 2 rfl rfl (by decide) (by decide) (by decide) 40 st0Bad1
    (fun hx => Option.noConfusion hx)
    (fun off hoff => absurd hoff (List.not_mem_nil off))
    4 (by decide)

/-! Claim C1. -/

/-- An exit step of the outer scan: when blockstart already equals the mask
of the cursor, the scan returns at once. -/
theorem scanOuter_exit (e : Env) (fuel : Nat) (st : St)
    (hb : st.blockstart = some (maskA st.mtdoffset e.ebsize_aligned)) :
    scanOuter e (fuel + 1) st = .ok st := by
  rw [scanOuter, if_pos hb]

/-- With every bad-block query answering good, the sub-unit scan returns
normally and only records its queries. -/
theorem scanSubs_nobad (e : Env) (bs : Nat) (hbad : ∀ i, e.isBad i = some false) :
    ∀ (fuel offs : Nat) (st : St), st.baderaseblock = false →
      ∃ u : St, scanSubs e bs fuel offs st = .ok u ∧
        u.mtdoffset = st.mtdoffset ∧ u.blockstart = st.blockstart ∧
        u.baderaseblock = false ∧ u.filebuf = st.filebuf ∧ u.writebuf = st.writebuf ∧
        u.inputRem = st.inputRem ∧ u.imglen = st.imglen ∧ u.ofg_imglen = st.ofg_imglen ∧
        succWrites u.trace = succWrites st.trace := by
  intro fuel
  induction fuel with
  | zero =>
    intro offs st hbe
    exact ⟨st, rfl, rfl, rfl, hbe, rfl, rfl, rfl, rfl, rfl, rfl⟩
  | succ n ih =>
    intro offs st hbe
    rw [scanSubs, hbad]
    dsimp only
    rw [Bool.or_false, hbe]
    rw [if_neg Bool.false_ne_true]
    rw [if_neg (fun hc => Bool.false_ne_true hc.1)]
    by_cases hlt : offs + e.ebsize_aligned / e.ba < bs + e.ebsize_aligned
    · rw [if_pos hlt]
      obtain ⟨u, hu, g1, g2, g3, g4, g5, g6, g7, g8, g9⟩ :=
        ih (offs + e.ebsize_aligned / e.ba)
          { st with
              trace := st.trace ++ [.isbadQ (offs / e.ebsize_aligned) false],
              baderaseblock := false }
          rfl
      refine ⟨u, hu, g1, g2, g3, g4, g5, g6, g7, g8, ?_⟩
      rw [g9]
      simp
    · rw [if_neg hlt]
      exact ⟨_, rfl, rfl, rfl, rfl, rfl, rfl, rfl, rfl, rfl, by simp⟩

/-- With every bad-block query answering good, the outer scan exits
normally without consuming input, issuing writes or moving the cursor;
the staging buffer is kept, or reset only when the cursor was mid-page. -/
theorem scanOuter_nobad (e : Env) (hbad : ∀ i, e.isBad i = some false)
    (hA0 : 0 < e.ebsize_aligned) :
    ∀ (n : Nat) (st : St),
      ∃ u : St, scanOuter e (n + 2) st = .ok u ∧
        u.mtdoffset = st.mtdoffset ∧
        u.inputRem = st.inputRem ∧ u.imglen = st.imglen ∧
        u.ofg_imglen = st.ofg_imglen ∧
        succWrites u.trace = succWrites st.trace ∧
        ((u.writebuf = st.writebuf ∧ u.filebuf = st.filebuf) ∨
          (u.writebuf = 0 ∧ u.filebuf = [])) := by
  intro n st
  have h21 : n + 2 = n + 1 + 1 := rfl
  rw [h21, scanOuter]
  by_cases hb : st.blockstart = some (maskA st.mtdoffset e.ebsize_aligned)
  · rw [if_pos hb]
    exact ⟨st, rfl, rfl, rfl, rfl, rfl, rfl, Or.inl ⟨rfl, rfl⟩⟩
  · rw [if_neg hb]
    dsimp only
    rw [if_neg (fun hc => absurd hc.2 (show e.ebsize_aligned ≠ 0 from by omega))]
    by_cases hns : e.opts.noskipbad = true
    · rw [if_pos hns]
      by_cases hwz : st.writebuf ≠ 0
      · rw [if_pos hwz]
        dsimp only
        exact ⟨_, scanOuter_exit e _ _ rfl, rfl, rfl, rfl, rfl, rfl, Or.inr ⟨rfl, rfl⟩⟩
      · rw [if_neg hwz]
        exact ⟨_, scanOuter_exit e _ _ rfl, rfl, rfl, rfl, rfl, rfl, Or.inl ⟨rfl, rfl⟩⟩
    · rw [if_neg hns]
      rw [if_neg (show ¬ e.ebsize_aligned = 0 from by omega)]
      by_cases hwz : st.writebuf ≠ 0
      · rw [if_pos hwz]
        dsimp only
        obtain ⟨u, hu, g1, g2, g3, g4, g5, g6, g7, g8, g9⟩ :=
          scanSubs_nobad e (maskA st.mtdoffset e.ebsize_aligned) hbad e.ba
            (maskA st.mtdoffset e.ebsize_aligned)
            { st with
                blockstart := some (maskA st.mtdoffset e.ebsize_aligned),
                baderaseblock := false,
                filebuf := [],
                writebuf := 0 }
            rfl
        rw [hu]
        dsimp only
        have hexit : u.blockstart = some (maskA u.mtdoffset e.ebsize_aligned) := by
          have a : u.blockstart = some (maskA st.mtdoffset e.ebsize_aligned) := g2
          have b : u.mtdoffset = st.mtdoffset := g1
          rw [a, b]
        have b : u.mtdoffset = st.mtdoffset := g1
        have h5 : u.inputRem = st.inputRem := g6
        have h6 : u.imglen = st.imglen := g7
        have h7 : u.ofg_imglen = st.ofg_imglen := g8
        have h8 : succWrites u.trace = succWrites st.trace := by
          have a : succWrites u.trace = succWrites
            ({ st with
                blockstart := some (maskA st.mtdoffset e.ebsize_aligned),
                baderaseblock := false,
                filebuf := [],
                writebuf := 0 } : St).trace := g9
          rw [a]
        have h9 : u.writebuf = 0 := g5
        have h10 : u.filebuf = [] := g4
        exact ⟨u, scanOuter_exit e _ u hexit, b, h5, h6, h7, h8, Or.inr ⟨h9, h10⟩⟩
      · rw [if_neg hwz]
        obtain ⟨u, hu, g1, g2, g3, g4, g5, g6, g7, g8, g9⟩ :=
          scanSubs_nobad e (maskA st.mtdoffset e.ebsize_aligned) hbad e.ba
            (maskA st.mtdoffset e.ebsize_aligned)
            { st with
                blockstart := some (maskA st.mtdoffset e.ebsize_aligned),
                baderaseblock := false }
            rfl
        rw [hu]
        dsimp only
        have hexit : u.blockstart = some (maskA u.mtdoffset e.ebsize_aligned) := by
          have a : u.blockstart = some (maskA st.mtdoffset e.ebsize_aligned) := g2
          have b : u.mtdoffset = st.mtdoffset := g1
          rw [a, b]
        have b : u.mtdoffset = st.mtdoffset := g1
        have h5 : u.inputRem = st.inputRem := g6
        have h6 : u.imglen = st.imglen := g7
        have h7 : u.ofg_imglen = st.ofg_imglen := g8
        have h8 : succWrites u.trace = succWrites st.trace := g9
        have h9 : u.writebuf = st.writebuf := g5
        have h10 : u.filebuf = st.filebuf := g4
        exact ⟨u, scanOuter_exit e _ u hexit, b, h5, h6, h7, h8, Or.inl ⟨h9, h10⟩⟩

/-- The main fill when the staged region is exhausted and the input list is
empty: the read returns 0 and the loop breaks (non-stdin input keeps its
imglen). -/
theorem fillMain_empty (e : Env) (st : St)
    (hcur : st.writebuf = st.filebuf.length)
    (hmin : 0 < e.mtd.min_io_size)
    (hre : st.inputRem.length = 0) :
    fillMain e st = .brk (if e.stdin = true then { st with imglen := 0 } else st) := by
  unfold fillMain
  rw [if_pos (by omega)]
  dsimp only
  rw [if_pos (show
    min e.mtd.min_io_size (st.filebuf.length - st.writebuf + st.inputRem.length) = 0
    from by omega)]

/-- The main fill when a whole page of input is available and the staged
region is exhausted: one page moves from the input to the staging buffer,
imglen drops by a page, and a progress report is appended. -/
theorem fillMain_page (e : Env) (st : St)
    (hcur : st.writebuf = st.filebuf.length)
    (hstdin : e.stdin = false)
    (havail : e.mtd.min_io_size ≤ st.inputRem.length)
    (hmin : 0 < e.mtd.min_io_size) :
    ∃ pv : Option Int, fillMain e st = .ok { st with
      filebuf := st.filebuf ++ st.inputRem.take e.mtd.min_io_size,
      inputRem := st.inputRem.drop e.mtd.min_io_size,
      imglen := st.imglen - (e.mtd.min_io_size : Int),
      trace := st.trace ++ [.progress pv] } := by
  refine ⟨st.ofg_imglen.map (fun t =>
    ((t - (st.imglen - (e.mtd.min_io_size : Int))) * 100).tdiv t), ?_⟩
  unfold fillMain
  rw [if_pos (by omega)]
  dsimp only
  rw [show st.filebuf.length - st.writebuf = 0 from by omega]
  rw [Nat.zero_add]
  rw [Nat.min_eq_left havail]
  rw [Nat.sub_zero]
  rw [if_neg (show ¬ e.mtd.min_io_size = 0 from by omega)]
  rw [if_neg (show ¬ (e.mtd.min_io_size < e.mtd.min_io_size ∧ e.opts.pad = false)
    from fun hc => absurd hc.1 (lt_irrefl _))]
  rw [if_pos hstdin]
  rw [Nat.sub_self, List.replicate_zero, List.append_nil]

/-- The main fill on standard input when a whole page is available and the
staged region is exhausted: one page moves from the input to the staging
buffer; imglen and the trace are untouched. -/
theorem fillMain_page_stdin (e : Env) (st : St)
    (hcur : st.writebuf = st.filebuf.length)
    (hstdin : e.stdin = true)
    (havail : e.mtd.min_io_size ≤ st.inputRem.length)
    (hmin : 0 < e.mtd.min_io_size) :
    fillMain e st = .ok { st with
      filebuf := st.filebuf ++ st.inputRem.take e.mtd.min_io_size,
      inputRem := st.inputRem.drop e.mtd.min_io_size } := by
  unfold fillMain
  rw [if_pos (by omega)]
  dsimp only
  rw [show st.filebuf.length - st.writebuf = 0 from by omega]
  rw [Nat.zero_add]
  rw [Nat.min_eq_left havail]
  rw [Nat.sub_zero]
  rw [if_neg (show ¬ e.mtd.min_io_size = 0 from by omega)]
  rw [if_neg (show ¬ (e.mtd.min_io_size < e.mtd.min_io_size ∧ e.opts.pad = false)
    from fun hc => absurd hc.1 (lt_irrefl _))]
  rw [if_neg (show ¬ e.stdin = false from by simp [hstdin])]
  rw [if_neg (show ¬ e.mtd.min_io_size < e.mtd.min_io_size from lt_irrefl _)]
  rw [Nat.sub_self, List.replicate_zero, List.append_nil]

/-- The whole-run induction behind C1: with no bad blocks, every write
succeeding, OOB off and page-aligned input length, every successful write
k carries page k of the input at offset start + k * pagesize, for file and
standard-input sources alike. -/
theorem runLoop_c1 (e : Env)
    (hbad : ∀ i, e.isBad i = some false)
    (hok : ∀ o, e.writeRes o = .ok)
    (hoob : e.opts.writeoob = false)
    (honly : e.opts.onlyoob = false)
    (hdiv : e.mtd.min_io_size ∣ e.input.length)
    (hmin : 0 < e.mtd.min_io_size)
    (hA0 : 0 < e.ebsize_aligned) :
    ∀ (fuel : Nat) (st : St) (W : Nat),
      st.writebuf = st.filebuf.length →
      st.inputRem = e.input.drop (W * e.mtd.min_io_size) →
      st.mtdoffset = e.opts.mtdoffset.toNat + W * e.mtd.min_io_size →
      (∀ j p, (succWrites st.trace).get? j = some p →
        p = (e.opts.mtdoffset.toNat + j * e.mtd.min_io_size,
          some ((e.input.drop (j * e.mtd.min_io_size)).take e.mtd.min_io_size))) →
      (succWrites st.trace).length = W →
      ∀ j p, (succWrites (RunRes.st (runLoop e fuel st)).trace).get? j = some p →
        p = (e.opts.mtdoffset.toNat + j * e.mtd.min_io_size,
          some ((e.input.drop (j * e.mtd.min_io_size)).take e.mtd.min_io_size)) := by
  have heb : e.mtd.eb_size ≠ 0 := by
    intro h0
    rw [Env.ebsize_aligned, h0] at hA0
    simp at hA0
  intro fuel
  induction fuel with
  | zero =>
    intro st W hcur hrem hmo hget hlen j p hj
    exact hget j p hj
  | succ n ih =>
    intro st W hcur hrem hmo hget hlen j p hj
    rw [runLoop] at hj
    by_cases hgd : loopCond e st = false
    · have hIt : loopIter e st = .done st := by
        unfold loopIter
        rw [if_pos hgd]
      rw [hIt] at hj
      exact hget j p hj
    · obtain ⟨u, hu, f1, f3, f4, f5, f6, f7⟩ := scanOuter_nobad e hbad hA0 e.mtd.size st
      have ucur : u.writebuf = u.filebuf.length := by
        rcases f7 with ⟨fa, fb⟩ | ⟨fa, fb⟩
        · rw [fa, fb]
          exact hcur
        · rw [fa, fb]
          rfl
      by_cases hre : u.inputRem.length = 0
      · have hIt : loopIter e st =
            .done (if e.stdin = true then { u with imglen := 0 } else u) := by
          unfold loopIter
          rw [if_neg hgd, hu]
          dsimp only
          rw [fillMain_empty e u ucur hmin hre]
        rw [hIt] at hj
        have htr : ((if e.stdin = true then { u with imglen := 0 } else u) : St).trace =
            u.trace := by
          split <;> rfl
        have hj2 : (succWrites
            ((if e.stdin = true then { u with imglen := 0 } else u) : St).trace).get? j =
            some p := hj
        rw [htr, f6] at hj2
        exact hget j p hj2
      · have hdvd2 : e.mtd.min_io_size ∣ u.inputRem.length := by
          rw [f3, hrem, List.length_drop]
          exact Nat.dvd_sub' hdiv (dvd_mul_left _ _)
        have havail : e.mtd.min_io_size ≤ u.inputRem.length :=
          Nat.le_of_dvd (Nat.pos_of_ne_zero hre) hdvd2
        obtain ⟨st1, hfm1, s1f, s1w, s1r, s1m, s1t⟩ :
            ∃ st1 : St, fillMain e u = .ok st1 ∧
              st1.filebuf = u.filebuf ++ u.inputRem.take e.mtd.min_io_size ∧
              st1.writebuf = u.writebuf ∧
              st1.inputRem = u.inputRem.drop e.mtd.min_io_size ∧
              st1.mtdoffset = u.mtdoffset ∧
              succWrites st1.trace = succWrites u.trace := by
          by_cases hstd : e.stdin = true
          · exact ⟨_, fillMain_page_stdin e u ucur hstd havail hmin,
              rfl, rfl, rfl, rfl, rfl⟩
          · have hstd2 : e.stdin = false := by
              cases hx : e.stdin
              · rfl
              · exact absurd hx hstd
            obtain ⟨pv, hfm⟩ := fillMain_page e u ucur hstd2 havail hmin
            exact ⟨_, hfm, rfl, rfl, rfl, rfl, by simp⟩
        have s1arg : mainArgOf e st1 =
            some ((e.input.drop (W * e.mtd.min_io_size)).take e.mtd.min_io_size) := by
          unfold mainArgOf
          rw [if_neg (by simp [honly])]
          rw [s1w, s1f, ucur, List.drop_left, List.take_take, Nat.min_self, f3, hrem]
        have hIt : loopIter e st = .cont { st1 with
            trace := st1.trace ++
              [.write st1.mtdoffset (mainArgOf e st1) (oobArgOf e st1) .ok],
            mtdoffset := st1.mtdoffset + e.mtd.min_io_size,
            writebuf := st1.writebuf + e.pagelen } := by
          unfold loopIter
          rw [if_neg hgd, hu]
          dsimp only
          rw [hfm1]
          dsimp only
          rw [fillOob_off e _ hoob]
          dsimp only
          rw [writePhase_ok_eq e _ heb (hok _)]
        have hsw : succWrites (st1.trace ++
            [Event.write st1.mtdoffset (mainArgOf e st1) (oobArgOf e st1) .ok]) =
            succWrites st.trace ++
              [(e.opts.mtdoffset.toNat + W * e.mtd.min_io_size,
                some ((e.input.drop (W * e.mtd.min_io_size)).take e.mtd.min_io_size))] := by
          rw [succWrites_append, succWrites_write_ok, s1arg, s1t, f6, s1m, f1, hmo]
        rw [hIt] at hj
        refine ih _ (W + 1) ?_ ?_ ?_ ?_ ?_ j p hj
        · show st1.writebuf + e.pagelen = st1.filebuf.length
          rw [s1w, s1f, ucur]
          simp [Env.pagelen, hoob, List.length_append, List.length_take,
            Nat.min_eq_left havail]
        · show st1.inputRem = e.input.drop ((W + 1) * e.mtd.min_io_size)
          rw [s1r, f3, hrem, List.drop_drop, Nat.succ_mul]
        · show st1.mtdoffset + e.mtd.min_io_size =
            e.opts.mtdoffset.toNat + (W + 1) * e.mtd.min_io_size
          rw [s1m, f1, hmo, Nat.succ_mul]
          omega
        · intro j' p' hj'
          have hj2 : (succWrites (st1.trace ++
              [Event.write st1.mtdoffset (mainArgOf e st1) (oobArgOf e st1) .ok])).get? j'
              = some p' := hj'
          rw [hsw] at hj2
          by_cases hjW : j' < W
          · rw [List.get?_append (by rw [hlen]; exact hjW)] at hj2
            exact hget j' p' hj2
          · by_cases hjE : j' = W
            · subst hjE
              rw [← hlen, List.get?_concat_length] at hj2
              cases hj2
              rw [hlen]
            · rw [List.get?_eq_none.mpr (by simp [hlen]; omega)] at hj2
              cases hj2
        · show (succWrites (st1.trace ++
            [Event.write st1.mtdoffset (mainArgOf e st1) (oobArgOf e st1) .ok])).length
              = W + 1
          rw [hsw]
          simp [hlen]

/-- C1: the claim as stated is false.  A run can satisfy all the claim's
premises (no bad blocks, OOB off, input length a page multiple) and still
shift the write sequence: after an EIO on the second page the recovery
replays the whole staged region at the next aligned block, so the write
sequence is 0, 4, 6, 8, 10 with page 0 written twice, and the second
successful write is (4, bytes [1,2]), not startOffset + 1*pageSize = 2 with
bytes [3,4]. -/
theorem C1_counterexample :
    (∀ i, envEio.isBad i = some false) ∧
    envEio.opts.writeoob = false ∧
    envEio.input.length % envEio.mtd.min_io_size = 0 ∧
    (succWrites (MainRes.trOf (nandwrite_main envEio 40))).get? 1 =
      some (4, some [1, 2]) ∧
    ¬ ((4 : ℕ), (some [1, 2] : Option (List Byte))) =
      (envEio.opts.mtdoffset.toNat + 1 * envEio.mtd.min_io_size,
        some ((envEio.input.drop (1 * envEio.mtd.min_io_size)).take
          envEio.mtd.min_io_size)) := by
  exact ⟨fun i => rfl, rfl, by decide, by decide, by decide⟩

/-- C1 (amended): with no bad blocks AND every page write succeeding (no
EIO replays), OOB off, input — file or standard input alike — of
page-aligned length, the k-th successful page write of the whole run is at
startOffset + k*pageSize and carries exactly bytes
[k*pageSize, (k+1)*pageSize) of the input, so reading back the written
pages reproduces the input. -/
theorem C1_amended (e : Env)
    (hbad : ∀ i, e.isBad i = some false)
    (hok : ∀ o, e.writeRes o = .ok)
    (hoob : e.opts.writeoob = false)
    (honly : e.opts.onlyoob = false)
    (hdiv : e.mtd.min_io_size ∣ e.input.length)
    (hmin : 0 < e.mtd.min_io_size)
    (hA0 : 0 < e.ebsize_aligned)
    (fuel : Nat) (img0 : Int) (ofg0 : Option Int) :
    ∀ j p,
      (succWrites (RunRes.st (runLoop e fuel (initSt e img0 ofg0 e.input))).trace).get? j
        = some p →
      p = (e.opts.mtdoffset.toNat + j * e.mtd.min_io_size,
        some ((e.input.drop (j * e.mtd.min_io_size)).take e.mtd.min_io_size)) := by
  refine runLoop_c1 e hbad hok hoob honly hdiv hmin hA0 fuel
    (initSt e img0 ofg0 e.input) 0 rfl ?_ ?_ ?_ ?_
  · show e.input = e.input.drop (0 * e.mtd.min_io_size)
    rw [Nat.zero_mul, List.drop_zero]
  · show e.opts.mtdoffset.toNat = e.opts.mtdoffset.toNat + 0 * e.mtd.min_io_size
    rw [Nat.zero_mul, Nat.add_zero]
  · intro j p hj
    have hj2 : (([] : List (ℕ × Option (List Byte))).get? j) = some p := hj
    simp at hj2
  · rfl

/-- C1 witness: the amended theorem evaluated on the all-good fixture at
k = 1: the second write is page 1 of the input at offset 2. -/
theorem C1_amended_witness :
    ((2 : ℕ), (some [3, 4] : Option (List Byte))) =
      (envA.opts.mtdoffset.toNat + 1 * envA.mtd.min_io_size,
        some ((envA.input.drop (1 * envA.mtd.min_io_size)).take envA.mtd.min_io_size)) :=
  C1_amended envA (fun i => rfl) (fun o => rfl) rfl rfl (by decide) (by decide)
    (by decide) 40 8 (some 8) 1 (2, some [3, 4]) (by decide)

/-! Claim C10. -/

/-- Within an aligned power-of-two block the mask recovers the block
start. -/
theorem maskA_near {x bs k : ℕ} (hx : x < 2 ^ 64) (hk : k ≤ 64)
    (hd : 2 ^ k ∣ bs) (h1 : bs ≤ x) (h2 : x < bs + 2 ^ k) :
    maskA x (2 ^ k) = bs := by
  obtain ⟨q, hq⟩ := hd
  rw [maskA_pow2 hx hk]
  have hdiv : x / 2 ^ k = q := by
    refine Nat.div_eq_of_lt_le ?_ ?_
    · rw [Nat.mul_comm, ← hq]
      exact h1
    · rw [Nat.succ_mul, Nat.mul_comm, ← hq]
      exact h2
  rw [hdiv, hq, Nat.mul_comm]

/-- A page step from a page-aligned offset inside a block stays within the
block. -/
theorem step_le_block {d A m : ℕ} (hm : 0 < m) (hdm : m ∣ d) (hAm : m ∣ A)
    (hlt : d < A) : d + m ≤ A := by
  obtain ⟨a, ha⟩ := hdm
  obtain ⟨b, hb⟩ := hAm
  subst ha
  subst hb
  have hab : a < b := by
    by_contra hcon
    push_neg at hcon
    exact absurd hlt (not_lt.mpr (Nat.mul_le_mul_left m hcon))
  calc m * a + m = m * (a + 1) := by ring
    _ ≤ m * b := Nat.mul_le_mul_left m hab

/-- Length envelope of a normal main fill: either the buffer is untouched
with a full page already staged ahead of the cursor, or it is topped up to
exactly one page past the cursor. -/
theorem fillMain_len (e : Env) (st : St) (w1 : St)
    (h : fillMain e st = .ok w1) (hwl : st.writebuf ≤ st.filebuf.length) :
    (w1.filebuf = st.filebuf ∧ st.writebuf + e.mtd.min_io_size ≤ st.filebuf.length) ∨
    (w1.filebuf.length = st.writebuf + e.mtd.min_io_size ∧
      st.filebuf.length ≤ st.writebuf + e.mtd.min_io_size) := by
  unfold fillMain at h
  split at h
  · next hcond =>
    dsimp only at h
    split at h
    · cases h
    · split at h
      · cases h
      · split at h
        · cases h
          refine Or.inr ⟨?_, by omega⟩
          simp [List.length_append, List.length_take, List.length_replicate]
          omega
        · split at h
          · cases h
            refine Or.inr ⟨?_, by omega⟩
            simp [List.length_append, List.length_take, List.length_replicate]
            omega
          · cases h
            refine Or.inr ⟨?_, by omega⟩
            simp [List.length_append, List.length_take, List.length_replicate]
            omega
  · next hcond =>
    cases h
    exact Or.inl ⟨rfl, by omega⟩

/-- Length envelope of a normal OOB fill: disabled it is the identity;
enabled it leaves the buffer with at least — and when it reads, exactly —
one page plus OOB past the cursor. -/
theorem fillOob_len (e : Env) (st : St) (w2 : St)
    (h : fillOob e st = .ok w2)
    (hob : st.writebuf + e.mtd.min_io_size ≤ st.filebuf.length) :
    (e.opts.writeoob = false ∧ w2 = st) ∨
    (e.opts.writeoob = true ∧
      ((w2.filebuf = st.filebuf ∧
        st.writebuf + e.mtd.min_io_size + e.mtd.oob_size ≤ st.filebuf.length) ∨
      (w2.filebuf.length = st.writebuf + e.mtd.min_io_size + e.mtd.oob_size ∧
        st.filebuf.length ≤ st.writebuf + e.mtd.min_io_size + e.mtd.oob_size))) := by
  unfold fillOob at h
  split at h
  · next hw =>
    dsimp only at h
    split at h
    · next hcond =>
      split at h
      · cases h
      · next hshort =>
        split at h
        · cases h
          refine Or.inr ⟨hw, Or.inr ⟨?_, by omega⟩⟩
          simp [List.length_append, List.length_take]
          omega
        · cases h
          refine Or.inr ⟨hw, Or.inr ⟨?_, by omega⟩⟩
          simp [List.length_append, List.length_take]
          omega
    · next hcond =>
      cases h
      exact Or.inr ⟨hw, Or.inl ⟨rfl, by omega⟩⟩
  · next hw =>
    cases h
    have hwf : e.opts.writeoob = false := by
      cases hx : e.opts.writeoob
      · rfl
      · exact absurd hx hw
    exact Or.inl ⟨hwf, rfl⟩

/-- A write phase that continues the loop either advanced one page or
completed an EIO recovery; in both cases the staged bytes and blockstart
survive. -/
theorem writePhase_cases (e : Env) (u v : St) (h : writePhase e u = .ok v) :
    (v.mtdoffset = u.mtdoffset + e.mtd.min_io_size ∧ v.writebuf = u.writebuf + e.pagelen ∧
      v.filebuf = u.filebuf ∧ v.blockstart = u.blockstart) ∨
    (v.mtdoffset = u.blockstart.getD 0 + e.ebsize_aligned ∧ v.writebuf = 0 ∧
      v.filebuf = u.filebuf ∧ v.blockstart = u.blockstart) := by
  unfold writePhase at h
  split at h
  · cases h
  · dsimp only at h
    cases hDR : e.writeRes u.mtdoffset with
    | ok =>
      rw [hDR] at h
      dsimp only at h
      cases h
      exact Or.inl ⟨rfl, rfl, rfl, rfl⟩
    | err =>
      rw [hDR] at h
      dsimp only at h
      cases h
    | eio =>
      rw [hDR] at h
      dsimp only at h
      split at h
      · cases h
      · next st3 hok =>
          unfold eraseRange at hok
          have F := eraseFold_fields e _ _ _ _ hok
          simp only [exceptSt] at F
          split at h
          · split at h
            · cases h
              exact Or.inr ⟨rfl, F.2.2.2.1, F.2.2.1, F.2.1⟩
            · cases h
          · cases h
            exact Or.inr ⟨rfl, F.2.2.2.1, F.2.2.1, F.2.1⟩

/-- A sub-unit scan that returns normally keeps the cursor at a multiple of
a power-of-two aligned block size, within the representable range. -/
theorem scanSubs_dvd_step (e : Env) (k : ℕ) (hk : k ≤ 64) (hA : e.ebsize_aligned = 2 ^ k)
    (hsize : e.mtd.size ≤ 2 ^ 63) {fuel offs x : ℕ} {st3 st4 : St}
    (heq : scanSubs e (maskA x e.ebsize_aligned) fuel offs st3 = .ok st4)
    (h3m : st3.mtdoffset = x) (hx64 : x < 2 ^ 64) (hxdvd : e.ebsize_aligned ∣ x) :
    st4.mtdoffset < 2 ^ 64 ∧ e.ebsize_aligned ∣ st4.mtdoffset := by
  obtain ⟨_, _, _, _, _, _, s7, _, _⟩ := scanSubs_ok_spec e heq
  rw [h3m] at s7
  have hmaskdvd : e.ebsize_aligned ∣ maskA x e.ebsize_aligned := by
    rw [hA, maskA_pow2 hx64 hk]
    exact dvd_mul_left _ _
  rcases s7 with h7 | ⟨h7, h7b⟩
  · rw [h7]
    exact ⟨hx64, hxdvd⟩
  · rw [h7]
    exact ⟨le63_lt64 (Nat.le_trans h7b hsize), Nat.dvd_add hmaskdvd dvd_rfl⟩

/-- An outer scan entered at a block-aligned offset exits at a block-aligned
offset (power-of-two aligned block size). -/
theorem scanOuter_dvd (e : Env) (k : ℕ) (hk : k ≤ 64) (hA : e.ebsize_aligned = 2 ^ k)
    (hsize : e.mtd.size ≤ 2 ^ 63) :
    ∀ (fuel : Nat) (st u : St), scanOuter e fuel st = .ok u →
      st.mtdoffset < 2 ^ 64 → e.ebsize_aligned ∣ st.mtdoffset →
      e.ebsize_aligned ∣ u.mtdoffset ∧ u.mtdoffset < 2 ^ 64 := by
  have hA0 : 0 < e.ebsize_aligned := by
    rw [hA]
    exact pow_pos (by norm_num) k
  intro fuel
  induction fuel with
  | zero =>
    intro st u h _ _
    rw [scanOuter] at h
    cases h
  | succ n ih =>
    intro st u h hst hdv
    rw [scanOuter] at h
    by_cases hb : st.blockstart = some (maskA st.mtdoffset e.ebsize_aligned)
    · rw [if_pos hb] at h
      cases h
      exact ⟨hdv, hst⟩
    · rw [if_neg hb] at h
      dsimp only at h
      rw [if_neg (fun hc => absurd hc.2 (show e.ebsize_aligned ≠ 0 from by omega))] at h
      by_cases hwz : st.writebuf ≠ 0
      · rw [if_pos hwz] at h
        split at h
        · obtain ⟨d1, d2⟩ := ih _ _ h (by exact hst) (by exact hdv)
          exact ⟨d1, d2⟩
        · split at h
          · cases h
          · split at h
            · cases h
            · next st4 heq =>
                obtain ⟨h64, hdv4⟩ :=
                  scanSubs_dvd_step e k hk hA hsize heq (by exact rfl) hst hdv
                obtain ⟨d1, d2⟩ := ih _ _ h h64 hdv4
                exact ⟨d1, d2⟩
      · rw [if_neg hwz] at h
        split at h
        · obtain ⟨d1, d2⟩ := ih _ _ h (by exact hst) (by exact hdv)
          exact ⟨d1, d2⟩
        · split at h
          · cases h
          · split at h
            · cases h
            · next st4 heq =>
                obtain ⟨h64, hdv4⟩ :=
                  scanSubs_dvd_step e k hk hA hsize heq (by exact rfl) hst hdv
                obtain ⟨d1, d2⟩ := ih _ _ h h64 hdv4
                exact ⟨d1, d2⟩

/-- An outer scan whose entry does not already satisfy the exit condition
(so the line 399-410 body runs): the exit state has the cursor rewound to
0 with a buffer satisfying the allocation bounds, a block-aligned device
offset, and blockstart holding its mask. -/
theorem scanBody_c10 (e : Env) (k : ℕ) (hk : k ≤ 64) (hA : e.ebsize_aligned = 2 ^ k)
    (hsize : e.mtd.size ≤ 2 ^ 63) (fuel : Nat) (st u : St)
    (hsc : scanOuter e (fuel + 1) st = .ok u)
    (hne : ¬ st.blockstart = some (maskA st.mtdoffset e.ebsize_aligned))
    (hx64 : st.mtdoffset < 2 ^ 64)
    (hxdvd : e.ebsize_aligned ∣ st.mtdoffset)
    (hfb : st.writebuf = 0 →
      st.filebuf.length ≤ e.filebuf_max ∧ e.pagelen ∣ st.filebuf.length) :
    u.writebuf = 0 ∧ u.filebuf.length ≤ e.filebuf_max ∧ e.pagelen ∣ u.filebuf.length ∧
    e.ebsize_aligned ∣ u.mtdoffset ∧ u.mtdoffset < 2 ^ 64 ∧
    u.blockstart = some (maskA u.mtdoffset e.ebsize_aligned) := by
  have hA0 : 0 < e.ebsize_aligned := by
    rw [hA]
    exact pow_pos (by norm_num) k
  have hpost := scanOuter_post e _ _ _ hsc
  rw [scanOuter] at hsc
  rw [if_neg hne] at hsc
  dsimp only at hsc
  rw [if_neg (fun hc => absurd hc.2 (show e.ebsize_aligned ≠ 0 from by omega))] at hsc
  by_cases hwz : st.writebuf ≠ 0
  · rw [if_pos hwz] at hsc
    split at hsc
    · have R := scanOuter_rewind e _ _ _ hsc (by exact rfl)
      have D := scanOuter_dvd e k hk hA hsize _ _ _ hsc (by exact hx64) (by exact hxdvd)
      have hfb2 : u.filebuf = ([] : List Byte) := R.2
      refine ⟨R.1, ?_, ?_, D.1, D.2, hpost⟩
      · rw [hfb2]
        exact Nat.zero_le _
      · rw [hfb2]
        exact dvd_zero _
    · split at hsc
      · cases hsc
      · split at hsc
        · cases hsc
        · next st4 heq =>
            obtain ⟨s1, s2, _⟩ := scanSubs_ok_spec e heq
            obtain ⟨h64, hdv4⟩ :=
              scanSubs_dvd_step e k hk hA hsize heq (by exact rfl) hx64 hxdvd
            have R := scanOuter_rewind e _ _ _ hsc (by exact s2)
            have D := scanOuter_dvd e k hk hA hsize _ _ _ hsc h64 hdv4
            have Rf : u.filebuf = st4.filebuf := R.2
            have hfb2 : u.filebuf = ([] : List Byte) := by
              rw [Rf]
              exact s1
            refine ⟨R.1, ?_, ?_, D.1, D.2, hpost⟩
            · rw [hfb2]
              exact Nat.zero_le _
            · rw [hfb2]
              exact dvd_zero _
  · rw [if_neg hwz] at hsc
    have hwz0 : st.writebuf = 0 := by omega
    obtain ⟨hm1, hm2⟩ := hfb hwz0
    split at hsc
    · have R := scanOuter_rewind e _ _ _ hsc (by exact hwz0)
      have D := scanOuter_dvd e k hk hA hsize _ _ _ hsc (by exact hx64) (by exact hxdvd)
      have hfb2 : u.filebuf = st.filebuf := R.2
      refine ⟨R.1, ?_, ?_, D.1, D.2, hpost⟩
      · rw [hfb2]
        exact hm1
      · rw [hfb2]
        exact hm2
    · split at hsc
      · cases hsc
      · split at hsc
        · cases hsc
        · next st4 heq =>
            obtain ⟨s1, s2, _⟩ := scanSubs_ok_spec e heq
            obtain ⟨h64, hdv4⟩ :=
              scanSubs_dvd_step e k hk hA hsize heq (by exact rfl) hx64 hxdvd
            have R := scanOuter_rewind e _ _ _ hsc (by exact s2.trans hwz0)
            have D := scanOuter_dvd e k hk hA hsize _ _ _ hsc h64 hdv4
            have Rf : u.filebuf = st4.filebuf := R.2
            have hfb2 : u.filebuf = st.filebuf := by
              rw [Rf]
              exact s1
            refine ⟨R.1, ?_, ?_, D.1, D.2, hpost⟩
            · rw [hfb2]
              exact hm1
            · rw [hfb2]
              exact hm2

/-- The byte-accounting shape of every normal scan exit, from any state
satisfying the loop invariant: blockstart holds an aligned block start at
or before the cursor, the staging cursor equals pages-into-the-block times
the stride, and one more page still fits the allocation. -/
theorem scanExit_c10 (e : Env) (k : ℕ) (hk : k ≤ 62) (hA : e.ebsize_aligned = 2 ^ k)
    (hdvd : e.mtd.min_io_size ∣ e.ebsize_aligned) (hmin : 0 < e.mtd.min_io_size)
    (hsize : e.mtd.size ≤ 2 ^ 63) (st u : St)
    (hsc : scanOuter e (e.mtd.size + 2) st = .ok u)
    (hinv : InvC10 e st) :
    ∃ bs : Nat, u.blockstart = some bs ∧ e.ebsize_aligned ∣ bs ∧
      bs ≤ u.mtdoffset ∧ u.mtdoffset < 2 ^ 64 ∧
      e.mtd.min_io_size ∣ (u.mtdoffset - bs) ∧
      u.mtdoffset - bs < e.ebsize_aligned ∧
      u.writebuf = (u.mtdoffset - bs) / e.mtd.min_io_size * e.pagelen ∧
      u.writebuf ≤ u.filebuf.length ∧
      u.filebuf.length ≤ e.filebuf_max ∧
      e.pagelen ∣ u.filebuf.length ∧
      u.writebuf + e.pagelen ≤ e.filebuf_max := by
  have hA0 : 0 < e.ebsize_aligned := by
    rw [hA]
    exact pow_pos (by norm_num) k
  have hminA : e.mtd.min_io_size ≤ e.ebsize_aligned := Nat.le_of_dvd hA0 hdvd
  have hplmin : e.mtd.min_io_size ≤ e.pagelen := by
    rw [Env.pagelen]
    exact Nat.le_add_right _ _
  have hmaxpl : e.pagelen ≤ e.filebuf_max := by
    rw [Env.filebuf_max]
    have h1 : 1 ≤ e.ebsize_aligned / e.mtd.min_io_size := (Nat.one_le_div_iff hmin).mpr hminA
    calc e.pagelen = 1 * e.pagelen := (Nat.one_mul _).symm
      _ ≤ e.ebsize_aligned / e.mtd.min_io_size * e.pagelen := Nat.mul_le_mul_right _ h1
  obtain ⟨hb64, hcase⟩ := hinv
  have bodyPost :
      ¬ st.blockstart = some (maskA st.mtdoffset e.ebsize_aligned) →
      e.ebsize_aligned ∣ st.mtdoffset →
      (st.writebuf = 0 →
        st.filebuf.length ≤ e.filebuf_max ∧ e.pagelen ∣ st.filebuf.length) →
      ∃ bs : Nat, u.blockstart = some bs ∧ e.ebsize_aligned ∣ bs ∧
        bs ≤ u.mtdoffset ∧ u.mtdoffset < 2 ^ 64 ∧
        e.mtd.min_io_size ∣ (u.mtdoffset - bs) ∧
        u.mtdoffset - bs < e.ebsize_aligned ∧
        u.writebuf = (u.mtdoffset - bs) / e.mtd.min_io_size * e.pagelen ∧
        u.writebuf ≤ u.filebuf.length ∧
        u.filebuf.length ≤ e.filebuf_max ∧
        e.pagelen ∣ u.filebuf.length ∧
        u.writebuf + e.pagelen ≤ e.filebuf_max := by
    intro hne hxdvd hfbh
    obtain ⟨w0, lmax, ldvd, udvd, u64, ubs⟩ :=
      scanBody_c10 e k (by omega) hA hsize (e.mtd.size + 1) st u (by exact hsc)
        hne hb64 hxdvd hfbh
    have hself : maskA u.mtdoffset e.ebsize_aligned = u.mtdoffset := by
      rw [hA]
      refine maskA_pow2_self u64 (by omega) ?_
      rw [← hA]
      exact udvd
    refine ⟨u.mtdoffset, by rw [ubs, hself], udvd, Nat.le_refl _, u64, ?_, ?_, ?_, ?_,
      lmax, ldvd, ?_⟩
    · rw [Nat.sub_self]
      exact dvd_zero _
    · rw [Nat.sub_self]
      exact hA0
    · rw [Nat.sub_self, w0]
      simp
    · rw [w0]
      exact Nat.zero_le _
    · rw [w0, Nat.zero_add]
      exact hmaxpl
  rcases hcase with ⟨hbn, hw0, hfb0, hdvx⟩ |
    ⟨bs, hbs, hbsdvd, hble, hbub, hmdvd, hwb, hwl, hlm, hld⟩ |
    ⟨bs, hbs, hbsdvd, hxeq, hw0, hlm, hld⟩
  · refine bodyPost ?_ hdvx ?_
    · rw [hbn]
      exact fun hx => Option.noConfusion hx
    · intro _
      rw [hfb0]
      exact ⟨Nat.zero_le _, dvd_zero _⟩
  · by_cases hend : st.mtdoffset < bs + e.ebsize_aligned
    · have hmask : maskA st.mtdoffset e.ebsize_aligned = bs := by
        rw [hA]
        refine maskA_near hb64 (by omega) ?_ hble ?_
        · rw [← hA]
          exact hbsdvd
        · rw [← hA]
          exact hend
      have hexit : scanOuter e (e.mtd.size + 2) st = .ok st := by
        have hbeq : st.blockstart = some (maskA st.mtdoffset e.ebsize_aligned) := by
          rw [hmask, hbs]
        exact scanOuter_exit e (e.mtd.size + 1) st hbeq
      rw [hexit] at hsc
      cases hsc
      refine ⟨bs, hbs, hbsdvd, hble, hb64, hmdvd, by omega, hwb, hwl, hlm, hld, ?_⟩
      have hstep : (st.mtdoffset - bs) + e.mtd.min_io_size ≤ e.ebsize_aligned :=
        step_le_block hmin hmdvd hdvd (by omega)
      have hq : ((st.mtdoffset - bs) + e.mtd.min_io_size) / e.mtd.min_io_size ≤
          e.ebsize_aligned / e.mtd.min_io_size := Nat.div_le_div_right hstep
      rw [Nat.add_div_right _ hmin] at hq
      rw [hwb, Env.filebuf_max]
      calc (st.mtdoffset - bs) / e.mtd.min_io_size * e.pagelen + e.pagelen
          = ((st.mtdoffset - bs) / e.mtd.min_io_size + 1) * e.pagelen := by
            rw [Nat.succ_mul]
        _ ≤ e.ebsize_aligned / e.mtd.min_io_size * e.pagelen :=
            Nat.mul_le_mul_right _ hq
    · have hxeq : st.mtdoffset = bs + e.ebsize_aligned := by omega
      refine bodyPost ?_ ?_ ?_
      · rw [hbs]
        intro hx
        have hxm := Option.some.inj hx
        have hself : maskA st.mtdoffset e.ebsize_aligned = st.mtdoffset := by
          rw [hA]
          refine maskA_pow2_self hb64 (by omega) ?_
          rw [← hA, hxeq]
          exact Nat.dvd_add hbsdvd dvd_rfl
        rw [hself] at hxm
        omega
      · rw [hxeq]
        exact Nat.dvd_add hbsdvd dvd_rfl
      · intro _
        exact ⟨hlm, hld⟩
  · refine bodyPost ?_ ?_ ?_
    · rw [hbs]
      intro hx
      have hxm := Option.some.inj hx
      have hself : maskA st.mtdoffset e.ebsize_aligned = st.mtdoffset := by
        rw [hA]
        refine maskA_pow2_self hb64 (by omega) ?_
        rw [← hA, hxeq]
        exact Nat.dvd_add hbsdvd dvd_rfl
      rw [hself] at hxm
      omega
    · rw [hxeq]
      exact Nat.dvd_add hbsdvd dvd_rfl
    · intro _
      exact ⟨hlm, hld⟩

/-- One continuing loop iteration preserves the byte-accounting
invariant. -/
theorem loopIter_c10 (e : Env) (k : ℕ) (hk : k ≤ 62) (hA : e.ebsize_aligned = 2 ^ k)
    (hdvd : e.mtd.min_io_size ∣ e.ebsize_aligned) (hmin : 0 < e.mtd.min_io_size)
    (hsize : e.mtd.size ≤ 2 ^ 63) (st v : St)
    (h : loopIter e st = .cont v) (hinv : InvC10 e st) : InvC10 e v := by
  have hA0 : 0 < e.ebsize_aligned := by
    rw [hA]
    exact pow_pos (by norm_num) k
  have hminA : e.mtd.min_io_size ≤ e.ebsize_aligned := Nat.le_of_dvd hA0 hdvd
  have hAle62 : e.ebsize_aligned ≤ 2 ^ 62 := by
    rw [hA]
    exact Nat.pow_le_pow_right (by norm_num) hk
  have hAle : e.ebsize_aligned ≤ 2 ^ 63 := by
    have h62 : (2:ℕ) ^ 62 ≤ 2 ^ 63 := by norm_num
    omega
  have hpows : (2:ℕ) ^ 62 + 2 ^ 63 < 2 ^ 64 := by norm_num
  unfold loopIter at h
  split at h
  · cases h
  · next hguard =>
    have hg : loopCond e st = true := by
      cases hc : loopCond e st
      · exact absurd hc hguard
      · rfl
    have hlt := loopCond_true_lt hg
    split at h
    · cases h
    · cases h
    · cases h
    · next w hsc =>
        obtain ⟨bs, P1, P2, P3, P4, P5, P6, P7, P8, P9, P10, P11⟩ :=
          scanExit_c10 e k hk hA hdvd hmin hsize st w hsc hinv
        have hw63 : w.mtdoffset ≤ 2 ^ 63 :=
          (scanOuter_mono e hsize hAle _ _ _ hsc
            (Nat.le_of_lt (Nat.lt_of_lt_of_le hlt hsize))).2 w rfl
        have hpldvd_wb : e.pagelen ∣ w.writebuf := by
          rw [P7]
          exact dvd_mul_left _ _
        split at h
        · cases h
        · cases h
        · next w1 hf =>
            have F := fillMain_fields e w _ hf
            have Fw : w1.writebuf = w.writebuf := F.2.2.1
            have Fm : w1.mtdoffset = w.mtdoffset := F.1
            have Fb : w1.blockstart = w.blockstart := F.2.1
            have FL := fillMain_len e w w1 hf P8
            have hob : w1.writebuf + e.mtd.min_io_size ≤ w1.filebuf.length := by
              rcases FL with ⟨hfb, hle⟩ | ⟨hlen1, _⟩
              · rw [Fw, hfb]
                exact hle
              · rw [Fw, hlen1]
            split at h
            · cases h
            · cases h
            · next w2 hg2 =>
                have G := fillOob_fields e w1 _ hg2
                have Gw : w2.writebuf = w1.writebuf := G.2.2.1
                have Gm : w2.mtdoffset = w1.mtdoffset := G.1
                have Gb : w2.blockstart = w1.blockstart := G.2.1
                have hGL := fillOob_len e w1 w2 hg2 hob
                have L : w2.filebuf.length ≤ e.filebuf_max ∧
                    e.pagelen ∣ w2.filebuf.length ∧
                    w.writebuf + e.pagelen ≤ w2.filebuf.length := by
                  have hplF : e.opts.writeoob = false →
                      e.pagelen = e.mtd.min_io_size := by
                    intro hx
                    simp [Env.pagelen, hx]
                  have hplT : e.opts.writeoob = true →
                      e.pagelen = e.mtd.min_io_size + e.mtd.oob_size := by
                    intro hx
                    simp [Env.pagelen, hx]
                  rcases hGL with ⟨hwo, rfl⟩ | ⟨hwo, hGL2⟩
                  · have hpl := hplF hwo
                    rcases FL with ⟨hfb, hle⟩ | ⟨hlen1, hle0⟩
                    · refine ⟨?_, ?_, ?_⟩
                      · rw [hfb]
                        exact P9
                      · rw [hfb]
                        exact P10
                      · rw [hfb, hpl]
                        exact hle
                    · refine ⟨?_, ?_, ?_⟩
                      · rw [hlen1, ← hpl]
                        exact P11
                      · rw [hlen1, ← hpl]
                        exact Nat.dvd_add hpldvd_wb dvd_rfl
                      · rw [hlen1, hpl]
                  · have hpl := hplT hwo
                    rcases hGL2 with ⟨hfb2, hge⟩ | ⟨hlen2, hle2⟩
                    · rcases FL with ⟨hfb, hle⟩ | ⟨hlen1, hle0⟩
                      · refine ⟨?_, ?_, ?_⟩
                        · rw [hfb2, hfb]
                          exact P9
                        · rw [hfb2, hfb]
                          exact P10
                        · rw [hfb2, hpl]
                          rw [Fw] at hge
                          omega
                      · have hoob0 : e.mtd.oob_size = 0 := by
                          rw [Fw, hlen1] at hge
                          omega
                        have hplm : e.pagelen = e.mtd.min_io_size := by
                          rw [hpl, hoob0]
                          omega
                        refine ⟨?_, ?_, ?_⟩
                        · rw [hfb2, hlen1, ← hplm]
                          exact P11
                        · rw [hfb2, hlen1, ← hplm]
                          exact Nat.dvd_add hpldvd_wb dvd_rfl
                        · rw [hfb2, hlen1, hplm]
                    · have hlen2' : w2.filebuf.length = w.writebuf + e.pagelen := by
                        rw [hlen2, Fw, hpl]
                        omega
                      refine ⟨?_, ?_, ?_⟩
                      · rw [hlen2']
                        exact P11
                      · rw [hlen2']
                        exact Nat.dvd_add hpldvd_wb dvd_rfl
                      · rw [hlen2']
                split at h
                · next v' hwp =>
                    cases h
                    rcases writePhase_cases e w2 v hwp with ⟨m1, m2, m3, m4⟩ | ⟨m1, m2, m3, m4⟩
                    · have hwm : w2.mtdoffset = w.mtdoffset := Gm.trans Fm
                      have hww : w2.writebuf = w.writebuf := Gw.trans Fw
                      have hwbs : w2.blockstart = w.blockstart := Gb.trans Fb
                      have hvb : v.blockstart = some bs := by
                        rw [m4, hwbs, P1]
                      have hvm : v.mtdoffset = w.mtdoffset + e.mtd.min_io_size := by
                        rw [m1, hwm]
                      have hstep : (w.mtdoffset - bs) + e.mtd.min_io_size ≤
                          e.ebsize_aligned := step_le_block hmin P5 hdvd P6
                      have hsub : v.mtdoffset - bs =
                          (w.mtdoffset - bs) + e.mtd.min_io_size := by
                        rw [hvm]
                        omega
                      refine ⟨?_, Or.inr (Or.inl ⟨bs, hvb, P2, ?_, ?_, ?_, ?_, ?_, ?_, ?_⟩)⟩
                      · rw [hvm]
                        have h1 : e.mtd.min_io_size ≤ 2 ^ 62 :=
                          Nat.le_trans hminA hAle62
                        omega
                      · rw [hvm]
                        omega
                      · rw [hvm]
                        omega
                      · rw [hsub]
                        exact Nat.dvd_add P5 dvd_rfl
                      · rw [hsub, Nat.add_div_right _ hmin, Nat.succ_mul]
                        rw [m2, hww, P7]
                      · rw [m2, m3, hww]
                        exact L.2.2
                      · rw [m3]
                        exact L.1
                      · rw [m3]
                        exact L.2.1
                    · have hwbs : w2.blockstart = w.blockstart := Gb.trans Fb
                      have hvb : v.blockstart = some bs := by
                        rw [m4, hwbs, P1]
                      have hvm : v.mtdoffset = bs + e.ebsize_aligned := by
                        rw [m1, hwbs, P1]
                        rfl
                      refine ⟨?_, Or.inr (Or.inr ⟨bs, hvb, P2, hvm, m2, ?_, ?_⟩)⟩
                      · rw [hvm]
                        have h1 : bs ≤ 2 ^ 63 := Nat.le_trans P3 hw63
                        omega
                      · rw [m3]
                        exact L.1
                      · rw [m3]
                        exact L.2.1
                · cases h
                · cases h
                · cases h

/-- The byte-accounting invariant holds at the top of every iteration. -/
theorem iterN_c10 (e : Env) (k : ℕ) (hk : k ≤ 62) (hA : e.ebsize_aligned = 2 ^ k)
    (hdvd : e.mtd.min_io_size ∣ e.ebsize_aligned) (hmin : 0 < e.mtd.min_io_size)
    (hsize : e.mtd.size ≤ 2 ^ 63) :
    ∀ (n : Nat) (st st1 : St), InvC10 e st → iterN e n st = some st1 → InvC10 e st1 := by
  intro n
  induction n with
  | zero =>
    intro st st1 hinv h
    rw [iterN] at h
    cases h
    exact hinv
  | succ m ih =>
    intro st st1 hinv h
    rw [iterN] at h
    split at h
    · next s heq =>
        exact ih s st1 (loopIter_c10 e k hk hA hdvd hmin hsize st s heq hinv) h
    · cases h

/-- C10: the claim as stated is false.  With a page-aligned but not
block-aligned start offset (offset 2, aligned blocks of 4), the first scan
exits with blockstart 0 and the staging cursor at 0, while
((deviceOffset - blockStart) / pageSize) * pagelen = (2 - 0) / 2 * 2 = 2:
the cursor does not equal pages-into-the-block times the stride. -/
theorem C10_counterexample :
    scanOuter envC10x (envC10x.mtd.size + 2) st0C10x = .ok uC10x ∧
    uC10x.blockstart = some 0 ∧ uC10x.writebuf = 0 ∧
    (uC10x.mtdoffset - 0) / envC10x.mtd.min_io_size * envC10x.pagelen = 2 ∧
    (0 : ℕ) ≠ 2 := by
  decide

/-- C10 (amended): when the start offset is aligned to the aligned block
size (a power of two at most 2^62 that the page size divides, device size
fitting a long), then at every scan exit — the start of every fill step —
the staging cursor equals pages-into-the-current-block times the per-page
stride, the cursor never passes the end of the one-aligned-block
allocation, and the staged length never exceeds that allocation. -/
theorem C10_amended (e : Env) (k : ℕ)
    (hk : k ≤ 62) (hA : e.ebsize_aligned = 2 ^ k)
    (hdvd : e.mtd.min_io_size ∣ e.ebsize_aligned)
    (hmin : 0 < e.mtd.min_io_size)
    (hsize : e.mtd.size ≤ 2 ^ 63)
    (hstart : e.ebsize_aligned ∣ e.opts.mtdoffset.toNat)
    (hstart64 : e.opts.mtdoffset.toNat < 2 ^ 64)
    (img0 : Int) (ofg0 : Option Int) (rem0 : List Byte)
    (n : Nat) (st1 u : St)
    (hiter : iterN e n (initSt e img0 ofg0 rem0) = some st1)
    (hsc : scanOuter e (e.mtd.size + 2) st1 = .ok u) :
    ∃ bs : Nat, u.blockstart = some bs ∧
      u.writebuf = (u.mtdoffset - bs) / e.mtd.min_io_size * e.pagelen ∧
      u.writebuf ≤ u.filebuf.length ∧
      u.writebuf + e.pagelen ≤ e.filebuf_max ∧
      u.filebuf.length ≤ e.filebuf_max := by
  have hinv0 : InvC10 e (initSt e img0 ofg0 rem0) :=
    ⟨hstart64, Or.inl ⟨rfl, rfl, rfl, hstart⟩⟩
  have hinv1 := iterN_c10 e k hk hA hdvd hmin hsize n _ st1 hinv0 hiter
  obtain ⟨bs, P1, _, _, _, _, _, P7, P8, P9, _, P11⟩ :=
    scanExit_c10 e k hk hA hdvd hmin hsize st1 u hsc hinv1
  exact ⟨bs, P1, P7, P8, P11, P9⟩

/-- C10 witness: the amended invariant evaluated after the first iteration
of the all-good run: blockstart 0, one page written, cursor at one
stride. -/
theorem C10_amended_witness :
    ∃ bs : Nat, st1W.blockstart = some bs ∧
      st1W.writebuf = (st1W.mtdoffset - bs) / envA.mtd.min_io_size * envA.pagelen ∧
      st1W.writebuf ≤ st1W.filebuf.length ∧
      st1W.writebuf + envA.pagelen ≤ envA.filebuf_max ∧
      st1W.filebuf.length ≤ envA.filebuf_max :=
  C10_amended envA 2 (by decide) (by decide) (by decide) (by decide) (by decide)
    (by decide) (by decide) 8 (some 8) envA.input 1 st1W st1W (by decide) (by decide)

end Nandwrite
